import Mathlib

/-! Stressless-win backend: request proxy, event hub and discovery engine.

A shallow embedding of `apps/server-go/cmd/server/main.go`.

Go strings are modelled by `String`; every string the handlers receive comes
out of `encoding/json`, which only produces valid UTF-8.  The string functions
of the Go standard library that the handlers call are defined on the list of
characters and wrapped.  Byte slices are `List UInt8`.
-/

namespace Stressless

/-! ## Standard-library string functions -/

/-- Go `unicode.IsSpace`: the Latin-1 space characters and the code points with
the Unicode White_Space property. -/
def isSpace (c : Char) : Bool :=
  let n := c.toNat
  decide (n = 9 ∨ n = 10 ∨ n = 11 ∨ n = 12 ∨ n = 13 ∨ n = 32 ∨ n = 0x85 ∨ n = 0xA0 ∨
    n = 0x1680 ∨ (0x2000 ≤ n ∧ n ≤ 0x200A) ∨ n = 0x2028 ∨ n = 0x2029 ∨ n = 0x202F ∨
    n = 0x205F ∨ n = 0x3000)

/-- Go `strings.TrimSpace` on the characters of a string. -/
def trimSpaceL (l : List Char) : List Char :=
  (l.dropWhile isSpace).rdropWhile isSpace

/-- Go `strings.TrimSpace`. -/
def trimSpace (s : String) : String := ⟨trimSpaceL s.data⟩

/-- Go `strings.HasPrefix` on the characters of a string. -/
def hasPrefixL (l pre : List Char) : Bool := pre.isPrefixOf l

/-- Go `strings.HasPrefix`. -/
def hasPrefix (s pre : String) : Bool := hasPrefixL s.data pre.data

/-- Go `strings.TrimPrefix` on the characters of a string. -/
def trimPrefixL (l pre : List Char) : List Char :=
  if hasPrefixL l pre then l.drop pre.length else l

/-- Go `strings.TrimPrefix`. -/
def trimPrefix (s pre : String) : String := ⟨trimPrefixL s.data pre.data⟩

/-- Go `strings.Contains` and `bytes.Contains`, on lists. -/
def containsSub {α : Type} [BEq α] (pat : List α) : List α → Bool
  | [] => pat.isPrefixOf []
  | c :: cs => pat.isPrefixOf (c :: cs) || containsSub pat cs

/-- Go `strings.Contains`. -/
def contains (s pat : String) : Bool := containsSub pat.data s.data

/-- Go `strings.Split(s, sep)` for a one-character separator, on the characters
of a string: the segments between the occurrences of the separator. -/
def splitL (sep : Char) : List Char → List (List Char)
  | [] => [[]]
  | c :: cs =>
    if c = sep then [] :: splitL sep cs
    else
      match splitL sep cs with
      | [] => [[c]]
      | seg :: rest => (c :: seg) :: rest

/-- Go `strings.Split(s, sep)` for a one-character separator. -/
def split (s : String) (sep : Char) : List String := (splitL sep s.data).map String.mk

/-! ## Discovery: host extraction (lines 382–388, 407–411) -/

/-- Lines 382–388 of `DiscoverHub.start`: the host derived from the (already
trimmed) local variable `target`. -/
def extractHost (target : String) : String :=
  let host :=
    if contains target "://" then
      let u := trimPrefix target "http://"
      let u := trimPrefix u "https://"
      (split u '/').headD ""
    else target
  trimSpace (trimPrefix host "www.")

/-- Line 371 followed by lines 382–388: the host the background task derives
from the `target` field of the request. -/
def discoverHost (target : String) : String := extractHost (trimSpace target)

/-- Lines 407–411: the probe URLs for a host, in order. -/
def probes (host : String) : List String :=
  ["https://" ++ host ++ "/openapi.json",
   "https://" ++ host ++ "/swagger.json",
   "https://" ++ host ++ "/docs"]

/-! ## Events and the event hub (lines 285–352) -/

/-- The Go struct `DiscoverEvent`; `meta` is the map as a list of entries. -/
structure DiscoverEvent where
  kind : String
  message : String
  meta : List (String × String)
  time : String
deriving DecidableEq, Repr

/-- Capacity of a subscriber channel: `make(chan []byte, 128)` (line 315). -/
def chanCap : Nat := 128

/-- The Go struct `sseClient`: `ch` is the content of the buffered channel,
oldest payload first. -/
structure sseClient where
  ch : List (List UInt8)
deriving DecidableEq, Repr

/-- The Go struct `DiscoverHub`.  `clients` is the set of subscriber pointers,
each with the struct it points to; `cancel` is the stored `context.CancelFunc`,
named by the number of the context it cancels. -/
structure DiscoverHub where
  clients : List (Nat × sseClient)
  running : Bool
  cancel : Option Nat
deriving DecidableEq, Repr

/-- `NewDiscoverHub` (lines 301–303). -/
def NewDiscoverHub : DiscoverHub := { clients := [], running := false, cancel := none }

/-- The non-blocking send of lines 347–350: `select { case c.ch <- b: default: }`. -/
def trySend (c : sseClient) (b : List UInt8) : sseClient :=
  if c.ch.length < chanCap then { ch := c.ch ++ [b] } else c

/-- `DiscoverHub.broadcast` (lines 342–352).  `marshal` is `json.Marshal`; the
loop visits every client once, and what it does to one client does not depend
on the others, so the order of the map iteration is immaterial. -/
def DiscoverHub.broadcast (marshal : DiscoverEvent → List UInt8) (h : DiscoverHub)
    (v : DiscoverEvent) : DiscoverHub :=
  let b := marshal v
  { h with clients := h.clients.map (fun pc => (pc.1, trySend pc.2 b)) }

/-- The receive of line 336 by the `add` loop of subscriber `p`: the oldest
payload leaves the channel (and is then written to the response). -/
def DiscoverHub.recv (h : DiscoverHub) (p : Nat) : DiscoverHub :=
  { h with clients := h.clients.map (fun pc => if pc.1 = p then (pc.1, { ch := pc.2.ch.tail }) else pc) }

/-- What the `add` loop of subscriber `p` writes at a receive on hub `h`: the
oldest payload, or nothing when the channel is empty (the loop then waits). -/
def DiscoverHub.delivered (h : DiscoverHub) (p : Nat) : List (List UInt8) :=
  match h.clients.lookup p with
  | some c => c.ch.take 1
  | none => []

/-- An operation on the hub's subscriber queues: a broadcast, or the receive of
one payload by a subscriber's writer loop. -/
inductive HubOp where
  | broadcast (v : DiscoverEvent)
  | recv (p : Nat)
deriving DecidableEq, Repr

/-- One hub operation. -/
def DiscoverHub.apply (marshal : DiscoverEvent → List UInt8) (h : DiscoverHub) :
    HubOp → DiscoverHub
  | .broadcast v => h.broadcast marshal v
  | .recv p => h.recv p

/-- The payloads subscriber `p` has written to its response, after the greeting
of line 329, over a run of hub operations started on hub `h`. -/
def writtenBy (marshal : DiscoverEvent → List UInt8) (p : Nat) :
    DiscoverHub → List HubOp → List (List UInt8)
  | _, [] => []
  | h, op :: ops =>
    (match op with
      | .recv q => if q = p then h.delivered p else []
      | .broadcast _ => []) ++ writtenBy marshal p (h.apply marshal op) ops

/-- The payloads broadcast over a run of hub operations, in order. -/
def broadcastPayloads (marshal : DiscoverEvent → List UInt8) : List HubOp → List (List UInt8)
  | [] => []
  | .broadcast v :: ops => marshal v :: broadcastPayloads marshal ops
  | .recv _ :: ops => broadcastPayloads marshal ops

/-! ## HTTP headers, requests and the client (standard library) -/

/-- Go `textproto.validHeaderFieldByte`: the token characters of RFC 7230. -/
def validHeaderFieldByte (c : Char) : Bool :=
  let n := c.toNat
  decide ((48 ≤ n ∧ n ≤ 57) ∨ (65 ≤ n ∧ n ≤ 90) ∨ (97 ≤ n ∧ n ≤ 122) ∨
    n = 33 ∨ n = 35 ∨ n = 36 ∨ n = 37 ∨ n = 38 ∨ n = 39 ∨ n = 42 ∨ n = 43 ∨ n = 45 ∨
    n = 46 ∨ n = 94 ∨ n = 95 ∨ n = 96 ∨ n = 124 ∨ n = 126)

/-- The canonicalising pass of Go `textproto.CanonicalMIMEHeaderKey`: upper case
for the first letter and for a letter after a hyphen, lower case elsewhere. -/
def canonL : Bool → List Char → List Char
  | _, [] => []
  | upper, c :: cs =>
    let n := c.toNat
    let c1 :=
      if upper ∧ 97 ≤ n ∧ n ≤ 122 then Char.ofNat (n - 32)
      else if ¬ upper ∧ 65 ≤ n ∧ n ≤ 90 then Char.ofNat (n + 32)
      else c
    c1 :: canonL (decide (c1 = '-')) cs

/-- Go `textproto.CanonicalMIMEHeaderKey`: a key with a character that is not a
token character is returned unchanged. -/
def canonicalMIMEHeaderKey (s : String) : String :=
  if s.data.all validHeaderFieldByte then ⟨canonL true s.data⟩ else s

/-- Go `http.Header`: canonical key to list of values. -/
abbrev Header := List (String × List String)

/-- Go `Header.Set`: the values of the canonical key are replaced by the one value. -/
def Header.Set (h : Header) (key value : String) : Header :=
  let k := canonicalMIMEHeaderKey key
  (k, [value]) :: h.filter (fun e => decide (e.1 ≠ k))

/-- Go `Header.Get`: the first value of the canonical key, or the empty string. -/
def Header.Get (h : Header) (key : String) : String :=
  match h.lookup (canonicalMIMEHeaderKey key) with
  | some (v :: _) => v
  | _ => ""

/-- The part of a Go `http.Request` that the handlers set: `body` is `none` for
a nil body, `timeout` is the deadline of its context in nanoseconds. -/
structure HttpRequest where
  method : String
  url : String
  body : Option String
  header : Header
  timeout : Int
deriving DecidableEq, Repr

/-- A Go `io.Reader` over a stream: the bytes it yields, then end of file
(`none`) or a read error. -/
structure Reader where
  data : List UInt8
  err : Option String
deriving DecidableEq, Repr

/-- Go `io.LimitReader(r, n)`: end of file once `n` bytes have been read. -/
def limitReader (r : Reader) (n : Nat) : Reader :=
  if n ≤ r.data.length then { data := r.data.take n, err := none } else r

/-- Go `io.ReadAll`: everything read until end of file or error, and the error. -/
def readAll (r : Reader) : List UInt8 × Option String := (r.data, r.err)

/-- The part of a Go `http.Response` that the handlers read. -/
structure HttpResponse where
  statusCode : Int
  status : String
  header : Header
  body : Reader
deriving DecidableEq, Repr

/-- What the network answers to one request sent by the transport: a transport
error, an answer that the client treats as a redirect (with the follow-up
request the client builds for it), or an answer it returns. -/
inductive RoundTrip where
  | fail (err : String)
  | redirect (next : HttpRequest)
  | answer (resp : HttpResponse)

/-- The part of a Go `http.Client` used here: the transport and `CheckRedirect`
(`none` is a nil error). -/
structure Client where
  transport : HttpRequest → RoundTrip
  CheckRedirect : HttpRequest → List HttpRequest → Option String

/-- Library functions and measurements the handlers depend on, taken as
parameters: `strings.ToUpper`, `strings.ToLower`, the error (if any) of
`http.NewRequestWithContext` for a method and URL, the text that `url.Error`
puts before the error it wraps (the operation, made from the method of the
original request, and the quoted URL), and the wall-clock milliseconds
measured around the dispatch of a request. -/
structure Lib where
  toUpper : String → String
  toLower : String → String
  newRequestErr : String → String → Option String
  urlErrorPrefix : String → String → String
  elapsedMs : HttpRequest → Int

/-- The outcome of `client.Do`: the requests sent, first to last, and the
response or the error text. -/
structure DoResult where
  sent : List HttpRequest
  result : Except String HttpResponse

/-- The loop of Go `Client.Do`: send the request; on a redirect consult
`CheckRedirect` with the follow-up request and the requests made so far, oldest
first, and follow it unless the policy returns an error.  An error is wrapped
in an `url.Error` that names the URL of the request that failed, or the
location of the redirect that was refused.  `reqs` are the requests already
made.  `none`: the fuel ran out before the loop ended. -/
def Client.doLoop (lib : Lib) (c : Client) : Nat → HttpRequest → List HttpRequest → Option DoResult
  | 0, _, _ => none
  | fuel + 1, req, reqs =>
    let reqs := reqs ++ [req]
    let op := (reqs.headD req).method
    match c.transport req with
    | .fail err => some { sent := reqs, result := .error (lib.urlErrorPrefix op req.url ++ err) }
    | .answer resp => some { sent := reqs, result := .ok resp }
    | .redirect next =>
      match c.CheckRedirect next reqs with
      | some err => some { sent := reqs, result := .error (lib.urlErrorPrefix op next.url ++ err) }
      | none => c.doLoop lib fuel next reqs

/-- Go `Client.Do`. -/
def Client.Do (lib : Lib) (c : Client) (fuel : Nat) (req : HttpRequest) : Option DoResult :=
  c.doLoop lib fuel req []

/-! ## Request proxy (lines 162–277) -/

/-- The Go struct `SendRequest`, as decoded from the request body.  `headers` is
the map as the list of entries in the order the loop of line 236 visits them. -/
structure SendRequest where
  method : String
  url : String
  headers : List (String × String)
  body : String
  timeoutMs : Int
deriving DecidableEq, Repr

/-- The Go struct `SendResponse`; `body` is the Go string as its bytes. -/
structure SendResponse where
  ok : Bool
  error : String
  status : Int
  statusText : String
  durationMs : Int
  headers : List (String × String)
  body : List UInt8
deriving DecidableEq, Repr

/-- What a handler writes: `http.Error(w, msg, code)`, the JSON object that
`writeJSON` writes for a `SendResponse` (the values a client decodes from it),
or the one that `writeJSON` writes for the map with the one entry `status`. -/
inductive Reply where
  | error (msg : String) (code : Nat)
  | send (r : SendResponse)
  | status (s : String)
deriving DecidableEq, Repr

/-- Go `utf8.DecodeRune` at the head of a byte string: the number of bytes of
the well-formed UTF-8 sequence that starts there, or 0 when none does (Go then
reports `RuneError` with width 1). -/
def runeLen : List UInt8 → Nat
  | [] => 0
  | c0 :: rest =>
    let b0 := c0.toNat
    if b0 < 0x80 then 1
    else if 0xC2 ≤ b0 ∧ b0 ≤ 0xDF then
      match rest with
      | c1 :: _ => if 0x80 ≤ c1.toNat ∧ c1.toNat ≤ 0xBF then 2 else 0
      | [] => 0
    else if 0xE0 ≤ b0 ∧ b0 ≤ 0xEF then
      let lo := if b0 = 0xE0 then 0xA0 else 0x80
      let hi := if b0 = 0xED then 0x9F else 0xBF
      match rest with
      | c1 :: c2 :: _ =>
        if lo ≤ c1.toNat ∧ c1.toNat ≤ hi ∧ 0x80 ≤ c2.toNat ∧ c2.toNat ≤ 0xBF then 3 else 0
      | _ => 0
    else if 0xF0 ≤ b0 ∧ b0 ≤ 0xF4 then
      let lo := if b0 = 0xF0 then 0x90 else 0x80
      let hi := if b0 = 0xF4 then 0x8F else 0xBF
      match rest with
      | c1 :: c2 :: c3 :: _ =>
        if lo ≤ c1.toNat ∧ c1.toNat ≤ hi ∧ 0x80 ≤ c2.toNat ∧ c2.toNat ≤ 0xBF ∧
            0x80 ≤ c3.toNat ∧ c3.toNat ≤ 0xBF then 4 else 0
      | _ => 0
    else 0

/-- Go `utf8.Valid`, with `k` bytes of the current sequence still to pass. -/
def utf8ValidFrom : Nat → List UInt8 → Bool
  | _, [] => true
  | k + 1, _ :: bs => utf8ValidFrom k bs
  | 0, b :: bs =>
    match runeLen (b :: bs) with
    | 0 => false
    | n + 1 => utf8ValidFrom n bs

/-- Go `utf8.Valid`. -/
def validUTF8 (b : List UInt8) : Bool := utf8ValidFrom 0 b

/-- The bytes of the string that a JSON decoder reads back from what
`encoding/json` writes for a Go string: a byte that starts no well-formed
UTF-8 sequence is written as U+FFFD (the bytes EF BF BD), everything else is
kept.  `k` bytes of the current sequence are still to pass. -/
def jsonRunes : Nat → List UInt8 → List UInt8
  | _, [] => []
  | k + 1, b :: bs => b :: jsonRunes k bs
  | 0, b :: bs =>
    match runeLen (b :: bs) with
    | 0 => 0xEF :: 0xBF :: 0xBD :: jsonRunes 0 bs
    | n + 1 => b :: jsonRunes n bs

/-- A Go string as it comes out of a JSON reply. -/
def jsonString (b : List UInt8) : List UInt8 := jsonRunes 0 b

/-- `newHTTPClient` (lines 180–199) over a given network. -/
def newHTTPClient (transport : HttpRequest → RoundTrip) : Client :=
  { transport := transport
    CheckRedirect := fun _ via =>
      if via.length ≥ 10 then some "stopped after 10 redirects" else none }

/-- Conversion to a 64-bit signed integer with wrap-around. -/
def wrap64 (x : Int) : Int := (x + 2 ^ 63) % 2 ^ 64 - 2 ^ 63

/-- `writeJSON` (lines 475–478) on a `SendResponse`: the object is written by
`json.Encoder`, so the body reaches the client as `jsonString` of the Go
string.  The fields modelled by `String` are valid UTF-8 and reach the client
as they are. -/
def writeJSON (r : SendResponse) : Reply := .send { r with body := jsonString r.body }

/-- Lines 209–212: the normalised method. -/
def normMethod (lib : Lib) (req : SendRequest) : String :=
  let method := lib.toUpper (trimSpace req.method)
  if method = "" then "GET" else method

/-- Lines 236–242: the caller's headers copied onto the request. -/
def copyHeaders (headers : List (String × String)) (h : Header) : Header :=
  headers.foldl (fun acc kv =>
    let kk := trimSpace kv.1
    if kk = "" then acc else acc.Set kk kv.2) h

/-- Lines 243–248: the defaults for `User-Agent` and `Content-Type`. -/
def applyDefaults (body method : String) (h : Header) : Header :=
  let h := if h.Get "User-Agent" = "" then h.Set "User-Agent" "Stressless-win/0.1" else h
  if body ≠ "" ∧ h.Get "Content-Type" = "" ∧ method ≠ "GET" ∧ method ≠ "HEAD" then
    h.Set "Content-Type" "application/json"
  else h

/-- Lines 209–248 of `handleSend` on a decoded request: the reply of an early
return, or the outbound request that is then handed to `client.Do`. -/
def buildRequest (lib : Lib) (req : SendRequest) : Except Reply HttpRequest :=
  let method := normMethod lib req
  let raw := trimSpace req.url
  if raw = "" ∨ (¬ hasPrefix raw "http://" ∧ ¬ hasPrefix raw "https://") then
    .error (.error "url must start with http:// or https://" 400)
  else
    let timeout : Int :=
      if req.timeoutMs > 0 then wrap64 (req.timeoutMs * 1000000) else 25 * 1000000000
    let body : Option String :=
      if req.body ≠ "" ∧ method ≠ "GET" ∧ method ≠ "HEAD" then some req.body else none
    match lib.newRequestErr method raw with
    | some err =>
      .error (writeJSON { ok := false, error := err, status := 0, statusText := "",
                          durationMs := 0, headers := [], body := [] })
    | none =>
      .ok { method := method, url := raw, body := body, timeout := timeout,
            header := applyDefaults req.body method (copyHeaders req.headers []) }

/-- Lines 261–266: the first value of every response header. -/
def outHeaders (h : Header) : List (String × String) :=
  h.filterMap (fun kv => match kv.2 with
    | v :: _ => some (kv.1, v)
    | [] => none)

/-- What a call of the handler did: its reply, the outbound request it built
(if it got that far) and the requests dispatched over the network, in order. -/
structure SendResult where
  reply : Reply
  built : Option HttpRequest
  sent : List HttpRequest

/-- `handleSend` (lines 201–277).  `decoded` is the result of decoding the
request body (`none`: malformed JSON).  `none`: `client.Do` did not return
within the fuel. -/
def handleSend (lib : Lib) (client : Client) (fuel : Nat) (decoded : Option SendRequest) :
    Option SendResult :=
  match decoded with
  | none => some { reply := .error "bad request" 400, built := none, sent := [] }
  | some req =>
    match buildRequest lib req with
    | .error reply => some { reply := reply, built := none, sent := [] }
    | .ok httpReq =>
      match client.Do lib fuel httpReq with
      | none => none
      | some r =>
        let dur := lib.elapsedMs httpReq
        match r.result with
        | .error err =>
          some { reply := writeJSON { ok := false, error := err, status := 0, statusText := "",
                                      durationMs := dur, headers := [], body := [] },
                 built := some httpReq, sent := r.sent }
        | .ok resp =>
          let b := (readAll (limitReader resp.body (2 * 1024 * 1024))).1
          some { reply := writeJSON { ok := true, error := "", status := resp.statusCode,
                                      statusText := resp.status, durationMs := dur,
                                      headers := outHeaders resp.header, body := b },
                 built := some httpReq, sent := r.sent }

/-! ## Discovery engine (lines 281–283, 354–454) -/

/-- The Go struct `DiscoverRequest`. -/
structure DiscoverRequest where
  target : String
deriving DecidableEq, Repr

/-- What lines 423–432 yield for one probe URL: `http.NewRequestWithContext`
fails (then `req2` is nil and line 424 panics), `client.Do` returns an error,
or it returns a response. -/
inductive ProbeOutcome where
  | badRequest
  | fail (err : String)
  | response (resp : HttpResponse)
deriving DecidableEq, Repr

/-- What the background task observes from outside at one step: whether
`ctx.Done()` is closed, the formatted `time.Now()`, and the outcome of a probe
request made at this step. -/
structure Obs where
  done : Bool
  now : String
  outcome : ProbeOutcome

/-- The steps of the background task that touch shared state or the outside:
a call of `h.broadcast`, the `select` on `ctx.Done()` with what it saw, a probe
request with its outcome, and the reset of the engine state in the deferred
function. -/
inductive Act where
  | broadcast (v : DiscoverEvent)
  | poll (done : Bool)
  | request (url : String) (outcome : ProbeOutcome)
  | reset
deriving DecidableEq, Repr

/-- Control points of the background task (lines 373–442); a point is named by
the step the task takes next.  `rest` are the probe URLs of the iterations
still to come; `panicking` tells that the deferred function runs because of a
panic. -/
inductive Loc where
  | begin (target : String)
  | known
  | select (p : String) (rest : List String)
  | cancelled
  | announce (p : String) (rest : List String)
  | request (p : String) (rest : List String)
  | failed (err : String) (rest : List String)
  | result (p : String) (resp : HttpResponse) (rest : List String)
  | finding (p : String)
  | deferReset (panicking : Bool)
  | deferBroadcast (panicking : Bool)
  | exit (panicking : Bool)
deriving DecidableEq, Repr

/-- The head of the loop of line 414: the next iteration, or the end of the
function body when no probe is left. -/
def Loc.loop : List String → Loc
  | [] => .deferReset false
  | p :: rest => .select p rest

/-- The bytes of an ASCII string. -/
def asciiBytes (s : String) : List UInt8 := s.data.map (fun c => c.toNat.toUInt8)

/-- The test of line 437. -/
def looksLikeOpenAPI (lib : Lib) (ct : String) (b : List UInt8) : Bool :=
  contains (lib.toLower ct) "json" && containsSub (asciiBytes "\"openapi\"") b

/-- The event of lines 393–403. -/
def knownDomainEvent (now : String) : DiscoverEvent :=
  { kind := "suggestion", message := "Known domain: openai.com", time := now,
    meta := [("docs_url", "https://platform.openai.com/docs/api-reference/introduction"),
             ("api_base", "https://api.openai.com/v1"),
             ("auth", "bearer"),
             ("openapi_source", "github_repo:openai/openai-openapi")] }

/-- The event of line 390. -/
def discoveringEvent (host now : String) : DiscoverEvent :=
  { kind := "info", message := "Discovering: " ++ host, meta := [], time := now }

/-- The event of line 422. -/
def probeEvent (p now : String) : DiscoverEvent :=
  { kind := "probe", message := "GET " ++ p, meta := [], time := now }

/-- The event of line 428. -/
def failEvent (err now : String) : DiscoverEvent :=
  { kind := "warning", message := "fail: " ++ err, meta := [], time := now }

/-- The event of line 435: `fmt.Sprintf("%d %s", resp.StatusCode, ct)`. -/
def probeResultEvent (statusCode : Int) (ct now : String) : DiscoverEvent :=
  { kind := "probe_result", message := toString statusCode ++ " " ++ ct, meta := [], time := now }

/-- The event of line 438. -/
def findingEvent (p now : String) : DiscoverEvent :=
  { kind := "finding", message := "Looks like OpenAPI", meta := [("openapi_url", p)], time := now }

/-- The event of line 379. -/
def finishedEvent (now : String) : DiscoverEvent :=
  { kind := "info", message := "discover_finished", meta := [], time := now }

/-- The event of line 417. -/
def cancelledEvent (now : String) : DiscoverEvent :=
  { kind := "warning", message := "discover_cancelled", meta := [], time := now }

/-- One step of the background task of `DiscoverHub.start` (lines 373–442):
the step taken and the next control point; `none` once the goroutine is gone. -/
def Loc.step (lib : Lib) (o : Obs) : Loc → Option (Act × Loc)
  | .begin target =>
    let host := extractHost target
    some (.broadcast (discoveringEvent host o.now),
          if host = "openai.com" then .known else Loc.loop (probes host))
  | .known => some (.broadcast (knownDomainEvent o.now), .deferReset false)
  | .select p rest => some (.poll o.done, if o.done then .cancelled else .announce p rest)
  | .cancelled => some (.broadcast (cancelledEvent o.now), .deferReset false)
  | .announce p rest =>
    some (.broadcast (probeEvent p o.now), .request p rest)
  | .request p rest =>
    some (.request p o.outcome,
          match o.outcome with
          | .badRequest => .deferReset true
          | .fail err => .failed err rest
          | .response resp => .result p resp rest)
  | .failed err rest =>
    some (.broadcast (failEvent err o.now), Loc.loop rest)
  | .result p resp rest =>
    let b := (readAll (limitReader resp.body (64 * 1024))).1
    let ct := resp.header.Get "Content-Type"
    some (.broadcast (probeResultEvent resp.statusCode ct o.now),
          if looksLikeOpenAPI lib ct b then .finding p else Loc.loop rest)
  | .finding p =>
    some (.broadcast (findingEvent p o.now), .deferReset false)
  | .deferReset panicking => some (.reset, .deferBroadcast panicking)
  | .deferBroadcast panicking => some (.broadcast (finishedEvent o.now), .exit panicking)
  | .exit _ => none

/-- A run of the background task from a control point: the steps taken, in
order, and the control point reached.  `obs t` is what the task observes at
its step number `t`; `tick` is the number of the next step. -/
def Loc.run (lib : Lib) (obs : Nat → Obs) : Nat → Nat → Loc → List Act × Loc
  | 0, _, loc => ([], loc)
  | fuel + 1, tick, loc =>
    match loc.step lib (obs tick) with
    | none => ([], loc)
    | some (act, next) =>
      let r := Loc.run lib obs fuel (tick + 1) next
      (act :: r.1, r.2)

/-- The background task launched for a request target (trimmed at line 371),
run to its end: sixteen steps are the longest run. -/
def taskRun (lib : Lib) (obs : Nat → Obs) (target : String) : List Act × Loc :=
  Loc.run lib obs 16 0 (.begin (trimSpace target))

/-- The events broadcast by a sequence of steps, in order. -/
def eventsOf : List Act → List DiscoverEvent
  | [] => []
  | .broadcast v :: acts => v :: eventsOf acts
  | _ :: acts => eventsOf acts

/-- The effect of one step of the task on the hub. -/
def DiscoverHub.act (marshal : DiscoverEvent → List UInt8) (h : DiscoverHub) : Act → DiscoverHub
  | .broadcast v => h.broadcast marshal v
  | .reset => { h with running := false, cancel := none }
  | .poll _ => h
  | .request _ _ => h

/-- What the task observes when its context is cancelled just before its step
number `k` and every probe fails in transport with the error `err t`. -/
def cancelObs (k : Nat) (now : Nat → String) (err : Nat → String) (t : Nat) : Obs :=
  { done := decide (k ≤ t), now := now t, outcome := .fail (err t) }

/-- A goroutine launched by `start`: the context it was given and its control
point. -/
structure Task where
  ctx : Nat
  loc : Loc
deriving DecidableEq, Repr

/-- The state of the process as far as the discovery engine goes: the hub, the
number of contexts created so far, the contexts whose cancel function has
been called, the goroutines launched by `start` that are not gone yet (oldest
first), and whether the process has died of a panic in such a goroutine. -/
structure Sys where
  hub : DiscoverHub
  ctxs : Nat
  cancelled : List Nat
  tasks : List Task
  crashed : Bool
deriving DecidableEq, Repr

/-- The process right after `main` has built the hub, with the given
subscribers connected. -/
def Sys.idle (clients : List (Nat × sseClient)) : Sys :=
  { hub := { NewDiscoverHub with clients := clients }, ctxs := 0, cancelled := [], tasks := [],
    crashed := false }

/-- `DiscoverHub.start` (lines 354–445): the reply, the hub after the call and
the goroutine launched, if any.  `decoded` is the result of decoding the
request body (`none`: malformed JSON); `ctx` names the context that
`context.WithCancel` creates at line 366. -/
def DiscoverHub.start (h : DiscoverHub) (ctx : Nat) (decoded : Option DiscoverRequest) :
    Reply × DiscoverHub × Option Task :=
  match decoded with
  | none => (.error "bad request" 400, h, none)
  | some req =>
    if trimSpace req.target = "" then (.error "bad request" 400, h, none)
    else if h.running then (.error "already running" 409, h, none)
    else
      (.status "started", { h with running := true, cancel := some ctx },
       some { ctx := ctx, loc := .begin (trimSpace req.target) })

/-- `DiscoverHub.stop` (lines 447–454): the reply and the context whose cancel
function is called, if one is stored. -/
def DiscoverHub.stop (h : DiscoverHub) : Reply × Option Nat :=
  (.status "stopping", h.cancel)

/-- A call of the start handler in the process: the new state and the reply. -/
def Sys.start (s : Sys) (decoded : Option DiscoverRequest) : Sys × Reply :=
  match s.hub.start s.ctxs decoded with
  | (reply, hub, some t) =>
    ({ s with hub := hub, ctxs := s.ctxs + 1, tasks := s.tasks ++ [t] }, reply)
  | (reply, hub, none) => ({ s with hub := hub }, reply)

/-- A call of the stop handler in the process: the new state and the reply. -/
def Sys.stop (s : Sys) : Sys × Reply :=
  match s.hub.stop with
  | (reply, some c) => ({ s with cancelled := c :: s.cancelled }, reply)
  | (reply, none) => (s, reply)

/-- One step of the `i`-th live goroutine; `now` and `outcome` are what it
observes from outside.  When the goroutine ends it leaves the list, and the
process dies if it ends by a panic. -/
def Sys.taskStep (lib : Lib) (marshal : DiscoverEvent → List UInt8) (s : Sys) (i : Nat)
    (now : String) (outcome : ProbeOutcome) : Sys :=
  match s.tasks.get? i with
  | none => s
  | some t =>
    match t.loc.step lib { done := decide (t.ctx ∈ s.cancelled), now := now, outcome := outcome } with
    | none => s
    | some (act, next) =>
      match next with
      | .exit panicking =>
        { s with hub := s.hub.act marshal act, tasks := s.tasks.eraseIdx i, crashed := panicking }
      | _ =>
        { s with hub := s.hub.act marshal act, tasks := s.tasks.set i { t with loc := next } }

/-- A transition of the process: a call of the start handler with a decoded
body, a call of the stop handler, or one step of a live goroutine. -/
inductive Label where
  | start (decoded : Option DiscoverRequest)
  | stop
  | task (i : Nat) (now : String) (outcome : ProbeOutcome)
deriving DecidableEq, Repr

/-- One transition; a dead process makes none. -/
def Sys.step (lib : Lib) (marshal : DiscoverEvent → List UInt8) (s : Sys) : Label → Sys
  | .start decoded => if s.crashed then s else (s.start decoded).1
  | .stop => if s.crashed then s else s.stop.1
  | .task i now outcome => if s.crashed then s else s.taskStep lib marshal i now outcome

/-- The state after a sequence of transitions. -/
def Sys.exec (lib : Lib) (marshal : DiscoverEvent → List UInt8) (s : Sys) (ls : List Label) : Sys :=
  ls.foldl (Sys.step lib marshal) s

/-- The goroutine has not yet reset the engine state (lines 375–378). -/
def Loc.beforeReset : Loc → Bool
  | .deferBroadcast _ => false
  | .exit _ => false
  | _ => true

/-- The goroutines that have not yet reset the engine state. -/
def Sys.working (s : Sys) : List Task := s.tasks.filter (fun t => t.loc.beforeReset)

/-- A bound on the number of steps the task still takes from a control point. -/
def Loc.rank : Loc → Nat
  | .exit _ => 0
  | .deferBroadcast _ => 1
  | .deferReset _ => 2
  | .known => 3
  | .cancelled => 3
  | .finding _ => 3
  | .failed _ rest => 4 * rest.length + 4
  | .result _ _ rest => 4 * rest.length + 4
  | .request _ rest => 4 * rest.length + 5
  | .announce _ rest => 4 * rest.length + 6
  | .select _ rest => 4 * rest.length + 7
  | .begin _ => 16

/-- The step is neither the reset of the engine state nor a broadcast of the
info event `discover_finished`. -/
def Act.ordinary (a : Act) : Prop :=
  a ≠ .reset ∧ ∀ v, a = .broadcast v → ¬ (v.kind = "info" ∧ v.message = "discover_finished")

/-- The invariant of the engine: the engine is marked running exactly when one
goroutine has not yet reset it (and then there is only one), and the cancel
handle is stored exactly when it is marked running. -/
def Sys.Inv (s : Sys) : Prop :=
  s.working.length = (if s.hub.running then 1 else 0) ∧ s.hub.cancel.isSome = s.hub.running

/-- No goroutine in the list of live goroutines has ended. -/
def Sys.Alive (s : Sys) : Prop := ∀ t ∈ s.tasks, ∀ p, t.loc ≠ .exit p

/-! ## Concrete parameters, for evaluating the definitions -/

/-- Upper case on the ASCII letters. -/
def asciiUpper (s : String) : String :=
  ⟨s.data.map (fun c => if 97 ≤ c.toNat ∧ c.toNat ≤ 122 then Char.ofNat (c.toNat - 32) else c)⟩

/-- Lower case on the ASCII letters. -/
def asciiLower (s : String) : String :=
  ⟨s.data.map (fun c => if 65 ≤ c.toNat ∧ c.toNat ≤ 90 then Char.ofNat (c.toNat + 32) else c)⟩

/-- Go `urlErrorOp` on an ASCII method: the first letter followed by the rest
in lower case; `Get` for the empty method. -/
def urlErrorOp (method : String) : String :=
  match method.data with
  | [] => "Get"
  | c :: cs => ⟨c :: (asciiLower ⟨cs⟩).data⟩

/-- Library parameters for ASCII input: every method and URL is accepted by
`http.NewRequestWithContext`, and an `url.Error` reads `Get "<url>": <error>`
for the method `GET`. -/
def asciiLib : Lib :=
  { toUpper := asciiUpper
    toLower := asciiLower
    newRequestErr := fun _ _ => none
    urlErrorPrefix := fun method url => urlErrorOp method ++ " \"" ++ url ++ "\": "
    elapsedMs := fun _ => 0 }

/-- A network on which every connection is refused. -/
def deadNet : HttpRequest → RoundTrip := fun _ => .fail "connection refused"

/-- A network that answers every request with the given response. -/
def echoNet (resp : HttpResponse) : HttpRequest → RoundTrip := fun _ => .answer resp

/-- The `i`-th request of a redirect chain: the URL is `http://a/` followed by
`i` letters. -/
def chainReq (i : Nat) : HttpRequest :=
  { method := "GET", url := ⟨"http://a/".data ++ List.replicate i 'x'⟩, body := none,
    header := [], timeout := 0 }

/-- A network that redirects the first `n` requests of the chain, each to the
next one, and answers request `n` with `resp`. -/
def chainNet (n : Nat) (resp : HttpResponse) (req : HttpRequest) : RoundTrip :=
  if req.url.data.length < 9 + n then .redirect { req with url := ⟨req.url.data ++ ['x']⟩ }
  else .answer resp

/-- A response `200 OK` with the given body. -/
def okResponse (body : List UInt8) : HttpResponse :=
  { statusCode := 200, status := "200 OK", header := [], body := { data := body, err := none } }

/-- A proxy request: method ` get `, a body, and a caller-supplied `content-type`. -/
def sampleGet : SendRequest :=
  { method := " get ", url := "http://a/", headers := [("content-type", "text/plain")],
    body := "payload", timeoutMs := 0 }

/-- The outbound request built for `sampleGet`. -/
def sampleGetBuilt : HttpRequest :=
  { method := "GET", url := "http://a/", body := none,
    header := [("User-Agent", ["Stressless-win/0.1"]), ("Content-Type", ["text/plain"])],
    timeout := 25000000000 }

/-- A run of the engine: a start, three steps of its goroutine (the
`Discovering` broadcast, the known-domain suggestion, the deferred reset), and
a second start before the goroutine has broadcast `discover_finished`. -/
def overlapRun : List Label :=
  [.start (some { target := "openai.com" }),
   .task 0 "t0" (.fail ""),
   .task 0 "t1" (.fail ""),
   .task 0 "t2" (.fail ""),
   .start (some { target := "example.com" })]

/-- A run of the engine: a start, a step of its goroutine, a stop, a second
start. -/
def busyRun : List Label :=
  [.start (some { target := "example.com" }),
   .task 0 "t0" (.fail ""),
   .stop,
   .start (some { target := "example.org" })]

/-- A serialisation for evaluation: the bytes of the message. -/
def messageBytes (v : DiscoverEvent) : List UInt8 := asciiBytes v.message

/-- A hub with two subscribers: the first holds 128 payloads, the second none. -/
def crowdedHub : DiscoverHub :=
  { clients := [(1, { ch := List.replicate 128 [] }), (2, { ch := [] })],
    running := true, cancel := some 0 }

/-- Observations of a task that is never cancelled and whose probes are all
answered `200` with a JSON body that mentions `"openapi"`. -/
def openapiObs (_ : Nat) : Obs :=
  { done := false, now := "t",
    outcome := .response
      { statusCode := 200, status := "200 OK",
        header := [("Content-Type", ["application/json"])],
        body := { data := asciiBytes "\x7b\"openapi\":\"3.0.0\"\x7d", err := none } } }

/-- A response `200 OK` whose body is one byte longer than 2 MiB, all `A`. -/
def longResponse : HttpResponse := okResponse (List.replicate 2097153 65)

/-! ## Lemmas on the string functions -/

theorem rdropWhile_append_keep {α : Type} (q : α → Bool) (a b : List α) (z : α)
    (hz : q z = false) :
    (a ++ [z] ++ b).rdropWhile q = a ++ [z] ++ b.rdropWhile q := by
  induction b using List.reverseRecOn with
  | nil => simp [List.rdropWhile_concat, hz]
  | append_singleton b x ih =>
    rw [← List.append_assoc, List.rdropWhile_concat, List.rdropWhile_concat, ih]
    split <;> simp

theorem trimSpaceL_append (c : Char) (a b : List Char) (z : Char)
    (hhead : isSpace c = false) (hlast : isSpace z = false) :
    trimSpaceL (c :: a ++ [z] ++ b) = c :: a ++ [z] ++ b.rdropWhile isSpace := by
  unfold trimSpaceL
  rw [List.cons_append, List.cons_append, List.dropWhile_cons, if_neg (by simp [hhead]),
    ← List.cons_append, ← List.cons_append]
  exact rdropWhile_append_keep isSpace _ _ z hlast

theorem trimSpaceL_eq_self {h : List Char} (hh : trimSpaceL h = h) :
    h.dropWhile isSpace = h ∧ h.rdropWhile isSpace = h := by
  unfold trimSpaceL at hh
  have h1 : ((h.dropWhile isSpace).rdropWhile isSpace).length ≤ (h.dropWhile isSpace).length :=
    (List.rdropWhile_prefix isSpace _).length_le
  have h2 : (h.dropWhile isSpace).length ≤ h.length := (List.dropWhile_suffix isSpace).length_le
  have h3 : h.dropWhile isSpace = h :=
    (List.dropWhile_suffix isSpace).eq_of_length (by rw [hh] at h1; omega)
  rw [h3] at hh
  exact ⟨h3, hh⟩

theorem splitL_ne_nil (sep : Char) (l : List Char) : splitL sep l ≠ [] := by
  cases l with
  | nil => simp [splitL]
  | cons c cs =>
    unfold splitL
    split
    · simp
    · split <;> simp

theorem splitL_head (sep : Char) (l : List Char) :
    (splitL sep l).headD [] = l.takeWhile (fun c => !decide (c = sep)) := by
  induction l with
  | nil => rfl
  | cons c cs ih =>
    by_cases hc : c = sep
    · simp [splitL, hc]
    · simp only [splitL, hc, if_false]
      cases hsp : splitL sep cs with
      | nil => exact absurd hsp (splitL_ne_nil sep cs)
      | cons seg rest =>
        rw [hsp] at ih
        simp only [List.headD_cons] at ih
        simp [hc, ← ih]

theorem takeWhile_ne_append (sep : Char) (x y : List Char) (hx : sep ∉ x) :
    (x ++ sep :: y).takeWhile (fun c => !decide (c = sep)) = x := by
  induction x with
  | nil => simp
  | cons c cs ih =>
    have hc : c ≠ sep := fun e => hx (by simp [e])
    have hcs : sep ∉ cs := fun e => hx (by simp [e])
    rw [List.cons_append, List.takeWhile_cons, ih hcs]
    simp [hc]

theorem takeWhile_ne_self (sep : Char) (x : List Char) (hx : sep ∉ x) :
    x.takeWhile (fun c => !decide (c = sep)) = x := by
  induction x with
  | nil => simp
  | cons c cs ih =>
    have hc : c ≠ sep := fun e => hx (by simp [e])
    have hcs : sep ∉ cs := fun e => hx (by simp [e])
    rw [List.takeWhile_cons, ih hcs]
    simp [hc]

/-- The scheme-stripping of lines 384–385 on a target that starts with `http://`. -/
theorem strip_http (rest : List Char) :
    trimPrefixL (trimPrefixL ("http://".data ++ rest) "http://".data) "https://".data
      = trimPrefixL rest "https://".data := by
  simp [trimPrefixL, hasPrefixL, List.isPrefixOf]

/-- The scheme-stripping of lines 384–385 on a target that starts with `https://`. -/
theorem strip_https (rest : List Char) :
    trimPrefixL (trimPrefixL ("https://".data ++ rest) "http://".data) "https://".data = rest := by
  simp [trimPrefixL, hasPrefixL, List.isPrefixOf]

theorem contains_scheme (s rest : List Char) (hs : s = "http://".data ∨ s = "https://".data) :
    containsSub "://".data (s ++ rest) = true := by
  rcases hs with rfl | rfl <;> simp [containsSub, List.isPrefixOf]

theorem trimSpaceL_scheme (s rest : List Char) (hs : s = "http://".data ∨ s = "https://".data) :
    trimSpaceL (s ++ rest) = s ++ rest.rdropWhile isSpace := by
  rcases hs with rfl | rfl
  · exact trimSpaceL_append 'h' "ttp:/".data rest '/' (by decide) (by decide)
  · exact trimSpaceL_append 'h' "ttps:/".data rest '/' (by decide) (by decide)

/-- A string without `/` does not start with `https://`. -/
theorem not_https_of_no_slash (h : List Char) (hslash : '/' ∉ h) :
    hasPrefixL h "https://".data = false := by
  by_contra hp
  have hp2 : "https://".data <+: h := List.isPrefixOf_iff_prefix.mp (by simpa [hasPrefixL] using hp)
  obtain ⟨t, rfl⟩ := hp2
  exact hslash (by simp)

theorem https_prefix_cases (h p : List Char) (hslash : '/' ∉ h)
    (hp : hasPrefixL (h ++ '/' :: p) "https://".data = true) :
    h = "https:".data ∧ hasPrefixL p "/".data = true := by
  have hp2 : "https://".data <+: h ++ '/' :: p := List.isPrefixOf_iff_prefix.mp hp
  obtain ⟨t, ht⟩ := hp2
  have key := congrArg (List.takeWhile (fun c => !decide (c = '/'))) ht
  rw [takeWhile_ne_append '/' h _ hslash] at key
  have hh : h = "https:".data := by rw [← key]; simp
  subst hh
  refine ⟨rfl, ?_⟩
  simp at ht
  simp [hasPrefixL, List.isPrefixOf, ← ht]

theorem extractHost_scheme (t : List Char) (hc : containsSub "://".data t = true) :
    extractHost ⟨t⟩ = ⟨trimSpaceL (trimPrefixL
      ((trimPrefixL (trimPrefixL t "http://".data) "https://".data).takeWhile
        (fun c => !decide (c = '/'))) "www.".data)⟩ := by
  have hd : ∀ l : List (List Char), (l.map String.mk).headD "" = String.mk (l.headD []) := by
    intro l; cases l <;> rfl
  simp only [extractHost, contains, hc, if_true, split, trimPrefix, trimSpace, hd, splitL_head]

theorem extractHost_www (h : List Char) (htrim : trimSpaceL h = h) :
    trimSpaceL (trimPrefixL ("www.".data ++ h) "www.".data) = h := by
  have : trimPrefixL ("www.".data ++ h) "www.".data = h := by
    simp [trimPrefixL, hasPrefixL, List.isPrefixOf]
  rw [this, htrim]

/-- Host extraction on the three scheme forms, on lists of characters. -/
theorem scheme_forms_hostL (s h p : List Char)
    (hs : s = "http://".data ∨ s = "https://".data)
    (hslash : '/' ∉ h) (htrim : trimSpaceL h = h) :
    discoverHost ⟨s ++ "www.".data ++ h ++ "/".data ++ p⟩ = ⟨h⟩ ∧
    (hasPrefixL h "www.".data = false →
      discoverHost ⟨s ++ h⟩ = ⟨h⟩ ∧
      (¬ (s = "http://".data ∧ h = "https:".data ∧ hasPrefixL p "/".data = true) →
        discoverHost ⟨s ++ h ++ "/".data ++ p⟩ = ⟨h⟩)) := by
  have hwww : '/' ∉ "www.".data ++ h := by simpa using hslash
  refine ⟨?_, fun hnw => ⟨?_, fun hex => ?_⟩⟩
  · have e1 : s ++ "www.".data ++ h ++ "/".data ++ p = s ++ (("www.".data ++ h) ++ '/' :: p) := by
      simp
    have e2 : ("www.".data ++ h ++ '/' :: p).rdropWhile isSpace
        = ("www.".data ++ h) ++ '/' :: p.rdropWhile isSpace := by
      have := rdropWhile_append_keep isSpace ("www.".data ++ h) p '/' (by decide)
      simpa using this
    unfold discoverHost trimSpace
    simp only [e1]
    rw [trimSpaceL_scheme s _ hs, e2, extractHost_scheme _ (contains_scheme s _ hs)]
    rcases hs with rfl | rfl
    · rw [strip_http]
      have : trimPrefixL ("www.".data ++ h ++ '/' :: p.rdropWhile isSpace) "https://".data
          = "www.".data ++ h ++ '/' :: p.rdropWhile isSpace := by
        simp [trimPrefixL, hasPrefixL, List.isPrefixOf]
      rw [this, takeWhile_ne_append '/' _ _ hwww, extractHost_www h htrim]
    · rw [strip_https, takeWhile_ne_append '/' _ _ hwww, extractHost_www h htrim]
  · have hr := (trimSpaceL_eq_self htrim).2
    unfold discoverHost trimSpace
    simp only []
    rw [trimSpaceL_scheme s _ hs, hr, extractHost_scheme _ (contains_scheme s _ hs)]
    have hnp : trimPrefixL h "www.".data = h := by simp [trimPrefixL, hnw]
    rcases hs with rfl | rfl
    · rw [strip_http]
      have : trimPrefixL h "https://".data = h := by
        simp [trimPrefixL, not_https_of_no_slash h hslash]
      rw [this, takeWhile_ne_self '/' h hslash, hnp, htrim]
    · rw [strip_https, takeWhile_ne_self '/' h hslash, hnp, htrim]
  · have e1 : s ++ h ++ "/".data ++ p = s ++ (h ++ '/' :: p) := by simp
    have e2 : (h ++ '/' :: p).rdropWhile isSpace = h ++ '/' :: p.rdropWhile isSpace := by
      have := rdropWhile_append_keep isSpace h p '/' (by decide)
      simpa using this
    unfold discoverHost trimSpace
    simp only [e1]
    rw [trimSpaceL_scheme s _ hs, e2, extractHost_scheme _ (contains_scheme s _ hs)]
    have hnp : trimPrefixL h "www.".data = h := by simp [trimPrefixL, hnw]
    rcases hs with rfl | rfl
    · rw [strip_http]
      have : trimPrefixL (h ++ '/' :: p.rdropWhile isSpace) "https://".data
          = h ++ '/' :: p.rdropWhile isSpace := by
        unfold trimPrefixL
        split
        · rename_i hp
          exfalso
          obtain ⟨hh, hq⟩ := https_prefix_cases h _ hslash hp
          apply hex
          refine ⟨rfl, hh, ?_⟩
          have hpre := List.isPrefixOf_iff_prefix.mp hq
          exact List.isPrefixOf_iff_prefix.mpr (hpre.trans ( List.rdropWhile_prefix isSpace p))
        · rfl
      rw [this, takeWhile_ne_append '/' _ _ hslash, hnp, htrim]
    · rw [strip_https, takeWhile_ne_append '/' _ _ hslash, hnp, htrim]

/-! ## The event hub -/

theorem lookup_map_clients (f : Nat → sseClient → sseClient) (l : List (Nat × sseClient))
    (p : Nat) :
    (l.map (fun pc => (pc.1, f pc.1 pc.2))).lookup p = (l.lookup p).map (f p) := by
  induction l with
  | nil => rfl
  | cons a l ih =>
    obtain ⟨q, c⟩ := a
    by_cases hq : p = q
    · subst hq; simp [List.lookup_cons]
    · have : (p == q) = false := by simpa using hq
      simp [List.lookup_cons, this, ih]

theorem lookup_broadcast (marshal : DiscoverEvent → List UInt8) (h : DiscoverHub)
    (v : DiscoverEvent) (p : Nat) :
    (h.broadcast marshal v).clients.lookup p
      = (h.clients.lookup p).map (fun c => trySend c (marshal v)) :=
  lookup_map_clients (fun _ c => trySend c (marshal v)) h.clients p

theorem lookup_recv (h : DiscoverHub) (q p : Nat) :
    (h.recv q).clients.lookup p
      = (h.clients.lookup p).map (fun c => if p = q then { ch := c.ch.tail } else c) := by
  have e : (h.recv q).clients
      = h.clients.map (fun pc => (pc.1, (fun k c => if k = q then { ch := c.ch.tail } else c) pc.1 pc.2)) := by
    unfold DiscoverHub.recv
    simp only
    apply List.map_congr_left
    intro pc _
    split <;> rfl
  rw [e]
  exact lookup_map_clients (fun k c => if k = q then { ch := c.ch.tail } else c) h.clients p

theorem take_one_append_tail {α : Type} (l : List α) : l.take 1 ++ l.tail = l := by
  cases l <;> simp

/-- Over any run of broadcasts and receives, what a subscriber has written
followed by what is still queued is its initial queue followed by a
subsequence, in order, of the payloads broadcast. -/
theorem hub_run_fifo (marshal : DiscoverEvent → List UInt8) (ops : List HubOp) :
    ∀ (h : DiscoverHub) (p : Nat) (c : sseClient), h.clients.lookup p = some c →
      ∃ (c1 : sseClient) (accepted : List (List UInt8)),
        (ops.foldl (DiscoverHub.apply marshal) h).clients.lookup p = some c1 ∧
        accepted.Sublist (broadcastPayloads marshal ops) ∧
        writtenBy marshal p h ops ++ c1.ch = c.ch ++ accepted := by
  induction ops with
  | nil => intro h p c hc; exact ⟨c, [], hc, List.Sublist.refl _, by simp [writtenBy]⟩
  | cons op ops ih =>
    intro h p c hc
    cases op with
    | broadcast v =>
      have h1 : (h.broadcast marshal v).clients.lookup p = some (trySend c (marshal v)) := by
        rw [lookup_broadcast, hc]; rfl
      obtain ⟨c1, acc, e1, e2, e3⟩ := ih (h.broadcast marshal v) p _ h1
      by_cases hlen : c.ch.length < chanCap
      · refine ⟨c1, marshal v :: acc, e1, ?_, ?_⟩
        · simpa [broadcastPayloads] using e2
        · simp only [writtenBy, DiscoverHub.apply, List.nil_append]
          rw [e3]; simp [trySend, hlen]
      · refine ⟨c1, acc, e1, ?_, ?_⟩
        · simpa [broadcastPayloads] using List.Sublist.cons (marshal v) e2
        · simp only [writtenBy, DiscoverHub.apply, List.nil_append]
          rw [e3]; simp [trySend, hlen]
    | recv q =>
      have h1 : (h.recv q).clients.lookup p
          = some (if p = q then { ch := c.ch.tail } else c) := by
        rw [lookup_recv, hc]; rfl
      obtain ⟨c1, acc, e1, e2, e3⟩ := ih (h.recv q) p _ h1
      refine ⟨c1, acc, e1, by simpa [broadcastPayloads] using e2, ?_⟩
      by_cases hq : q = p
      · subst hq
        simp only [writtenBy, DiscoverHub.apply, if_true, DiscoverHub.delivered, hc,
          List.append_assoc]
        rw [e3]
        simp only [if_true, ← List.append_assoc, take_one_append_tail]
      · have hq2 : ¬ p = q := fun e => hq e.symm
        simp only [writtenBy, DiscoverHub.apply, hq, if_false, List.nil_append]
        rw [e3]; simp [hq2]

/-! ## The request proxy -/

theorem copyHeaders_mem (L : List (String × String)) :
    ∀ (l : List (String × String)) (acc : Header), (∀ e ∈ l, e ∈ L) →
      (∀ key vs, (key, vs) ∈ acc → ∃ k v, (k, v) ∈ L ∧ trimSpace k ≠ "" ∧
        canonicalMIMEHeaderKey (trimSpace k) = key ∧ vs = [v]) →
      ∀ key vs, (key, vs) ∈ copyHeaders l acc → ∃ k v, (k, v) ∈ L ∧ trimSpace k ≠ "" ∧
        canonicalMIMEHeaderKey (trimSpace k) = key ∧ vs = [v] := by
  intro l
  induction l with
  | nil => intro acc _ hacc key vs hm; exact hacc key vs hm
  | cons kv l ih =>
    intro acc hl hacc key vs hm
    unfold copyHeaders at hm
    rw [List.foldl_cons] at hm
    refine ih _ (fun e he => hl e (List.mem_cons_of_mem _ he)) ?_ key vs hm
    intro key1 vs1 hm1
    by_cases hk : trimSpace kv.1 = ""
    · simp only [hk, if_true] at hm1
      exact hacc key1 vs1 hm1
    · simp only [hk, if_false, Header.Set, List.mem_cons, List.mem_filter] at hm1
      rcases hm1 with heq | ⟨hin, _⟩
      · refine ⟨kv.1, kv.2, hl _ (List.mem_cons_self _ _), hk, ?_, ?_⟩
        · exact (congrArg Prod.fst heq).symm
        · exact congrArg Prod.snd heq
      · exact hacc key1 vs1 hin

theorem applyDefaults_get_head (body method : String) (h : Header)
    (hm : method = "GET" ∨ method = "HEAD") (vs : List String)
    (hin : ("Content-Type", vs) ∈ applyDefaults body method h) :
    ("Content-Type", vs) ∈ h := by
  unfold applyDefaults at hin
  have hcond : ¬ (method ≠ "GET" ∧ method ≠ "HEAD") := by
    rcases hm with h1 | h1 <;> simp [h1]
  simp only [] at hin
  rw [if_neg (fun hc => hcond ⟨hc.2.2.1, hc.2.2.2⟩)] at hin
  split at hin
  · simp only [Header.Set, List.mem_cons, List.mem_filter] at hin
    rcases hin with heq | ⟨hin, _⟩
    · have hne : "Content-Type" ≠ canonicalMIMEHeaderKey "User-Agent" := by decide
      exact absurd (congrArg Prod.fst heq) hne
    · exact hin
  · exact hin

theorem chainNet_step (n : Nat) (resp : HttpResponse) (i : Nat) (hi : i < n) :
    chainNet n resp (chainReq i) = .redirect (chainReq (i + 1)) := by
  have hlen : (chainReq i).url.data.length < 9 + n := by
    simp [chainReq]; omega
  unfold chainNet
  rw [if_pos hlen]
  simp [chainReq, List.replicate_succ']

theorem chainNet_end (n : Nat) (resp : HttpResponse) :
    chainNet n resp (chainReq n) = .answer resp := by
  have hlen : ¬ (chainReq n).url.data.length < 9 + n := by
    simp [chainReq]; omega
  unfold chainNet
  rw [if_neg hlen]

theorem chain_head (r : Nat → HttpRequest) (j : Nat) :
    ((List.range j).map r ++ [r j]).headD (r j) = r 0 := by
  cases j with
  | zero => rfl
  | succ j => simp [List.range_succ_eq_map]

theorem doLoop_follow (lib : Lib) (tr : HttpRequest → RoundTrip) (r : Nat → HttpRequest)
    (n : Nat) (resp : HttpResponse) (hn : n ≤ 9)
    (hchain : ∀ i, i < n → tr (r i) = .redirect (r (i + 1))) (hend : tr (r n) = .answer resp) :
    ∀ d j fuel, j + d = n → d + 1 ≤ fuel →
      (newHTTPClient tr).doLoop lib fuel (r j) ((List.range j).map r)
        = some { sent := (List.range (n + 1)).map r, result := .ok resp } := by
  intro d
  induction d with
  | zero =>
    intro j fuel hj hf
    obtain ⟨f, rfl⟩ : ∃ f, fuel = f + 1 := ⟨fuel - 1, by omega⟩
    have : j = n := by omega
    subst this
    simp [Client.doLoop, newHTTPClient, hend, List.range_succ]
  | succ d ih =>
    intro j fuel hj hf
    obtain ⟨f, rfl⟩ : ∃ f, fuel = f + 1 := ⟨fuel - 1, by omega⟩
    have hlt : j < n := by omega
    have hrec := ih (j + 1) f (by omega) (by omega)
    have e : (List.range (j + 1)).map r = (List.range j).map r ++ [r j] := by
      simp [List.range_succ]
    rw [e] at hrec
    have ht : (newHTTPClient tr).transport (r j) = .redirect (r (j + 1)) := hchain j hlt
    have hc : (newHTTPClient tr).CheckRedirect (r (j + 1)) ((List.range j).map r ++ [r j])
        = none := by
      simp [newHTTPClient]; omega
    rw [Client.doLoop]
    simp only [ht, hc]
    exact hrec

theorem doLoop_refuse (lib : Lib) (tr : HttpRequest → RoundTrip) (r : Nat → HttpRequest)
    (n : Nat) (hn : 10 ≤ n)
    (hchain : ∀ i, i < n → tr (r i) = .redirect (r (i + 1))) :
    ∀ d j fuel, j + d = 9 → d + 1 ≤ fuel →
      (newHTTPClient tr).doLoop lib fuel (r j) ((List.range j).map r)
        = some { sent := (List.range 10).map r,
                 result := .error (lib.urlErrorPrefix (r 0).method (r 10).url
                   ++ "stopped after 10 redirects") } := by
  intro d
  induction d with
  | zero =>
    intro j fuel hj hf
    obtain ⟨f, rfl⟩ : ∃ f, fuel = f + 1 := ⟨fuel - 1, by omega⟩
    have : j = 9 := by omega
    subst this
    have ht : (newHTTPClient tr).transport (r 9) = .redirect (r 10) := hchain 9 (by omega)
    have hc : (newHTTPClient tr).CheckRedirect (r 10) ((List.range 9).map r ++ [r 9])
        = some "stopped after 10 redirects" := by
      simp [newHTTPClient]
    have e : (List.range 10).map r = (List.range 9).map r ++ [r 9] := by
      simp [List.range_succ]
    rw [Client.doLoop]
    simp only [ht, hc, chain_head r 9, e]
  | succ d ih =>
    intro j fuel hj hf
    obtain ⟨f, rfl⟩ : ∃ f, fuel = f + 1 := ⟨fuel - 1, by omega⟩
    have hlt : j < n := by omega
    have hrec := ih (j + 1) f (by omega) (by omega)
    have e : (List.range (j + 1)).map r = (List.range j).map r ++ [r j] := by
      simp [List.range_succ]
    rw [e] at hrec
    have ht : (newHTTPClient tr).transport (r j) = .redirect (r (j + 1)) := hchain j hlt
    have hc : (newHTTPClient tr).CheckRedirect (r (j + 1)) ((List.range j).map r ++ [r j])
        = none := by
      simp [newHTTPClient]; omega
    rw [Client.doLoop]
    simp only [ht, hc]
    exact hrec

/-- With the policy of `newHTTPClient`, `Client.Do` returns within fuel 10 on
every network. -/
theorem doLoop_total (lib : Lib) (tr : HttpRequest → RoundTrip) :
    ∀ d fuel (req : HttpRequest) (reqs : List HttpRequest), reqs.length + d = 9 → d + 1 ≤ fuel →
      ((newHTTPClient tr).doLoop lib fuel req reqs).isSome = true := by
  intro d
  induction d with
  | zero =>
    intro fuel req reqs hl hf
    obtain ⟨f, rfl⟩ : ∃ f, fuel = f + 1 := ⟨fuel - 1, by omega⟩
    have hlen : reqs.length + 1 ≥ 10 := by omega
    unfold Client.doLoop
    cases htr : (newHTTPClient tr).transport req with
    | fail err => simp
    | answer resp => simp
    | redirect next => simp [newHTTPClient, hlen]
  | succ d ih =>
    intro fuel req reqs hl hf
    obtain ⟨f, rfl⟩ : ∃ f, fuel = f + 1 := ⟨fuel - 1, by omega⟩
    have hlen : ¬ (reqs.length + 1 ≥ 10) := by omega
    unfold Client.doLoop
    cases htr : (newHTTPClient tr).transport req with
    | fail err => simp
    | answer resp => simp
    | redirect next =>
      simp only [newHTTPClient, List.length_append, List.length_singleton, hlen, if_false]
      exact ih f next (reqs ++ [req]) (by simp; omega) (by omega)

/-- C1: a decoded proxy request whose trimmed url is empty or starts with neither
`http://` nor `https://` is answered with status 400 and the message
`url must start with http:// or https://`; no outbound request is built and
none is dispatched, whatever the method, headers, body, timeout, client and
network are. -/
theorem handleSend_rejects_bad_url (lib : Lib) (client : Client) (fuel : Nat)
    (req : SendRequest)
    (hurl : trimSpace req.url = "" ∨
      (hasPrefix (trimSpace req.url) "http://" = false ∧
        hasPrefix (trimSpace req.url) "https://" = false)) :
    handleSend lib client fuel (some req)
      = some { reply := .error "url must start with http:// or https://" 400,
               built := none, sent := [] } := by
  have hb : buildRequest lib req
      = .error (.error "url must start with http:// or https://" 400) := by
    unfold buildRequest
    simp only []
    rw [if_pos]
    rcases hurl with h | ⟨h1, h2⟩
    · exact Or.inl h
    · exact Or.inr ⟨by simp [h1], by simp [h2]⟩
  simp only [handleSend, hb]

/-- Witness of C1: method `POST`, url `ftp://x`. -/
theorem handleSend_rejects_bad_url_witness :
    (trimSpace "ftp://x" = "" ∨
      (hasPrefix (trimSpace "ftp://x") "http://" = false ∧
        hasPrefix (trimSpace "ftp://x") "https://" = false)) ∧
    handleSend asciiLib (newHTTPClient deadNet) 10
        (some { method := "POST", url := "ftp://x", headers := [], body := "", timeoutMs := 0 })
      = some { reply := .error "url must start with http:// or https://" 400,
               built := none, sent := [] } :=
  ⟨Or.inr (by decide),
   handleSend_rejects_bad_url asciiLib (newHTTPClient deadNet) 10
     { method := "POST", url := "ftp://x", headers := [], body := "", timeoutMs := 0 }
     (Or.inr (by decide))⟩

/-- C2: when the normalised method is `GET` or `HEAD`, the outbound request that
the proxy builds has no body, also when the caller's body is not empty, and every
`Content-Type` entry of its header is one the caller supplied under a name
that canonicalises to `Content-Type` (the `application/json` default is not
applied); this request is the one the handler hands to the client. -/
theorem handleSend_get_head_no_body (lib : Lib) (req : SendRequest) (httpReq : HttpRequest)
    (hm : normMethod lib req = "GET" ∨ normMethod lib req = "HEAD")
    (hbuilt : buildRequest lib req = .ok httpReq) :
    httpReq.body = none ∧
    (∀ vs, ("Content-Type", vs) ∈ httpReq.header →
      ∃ k v, (k, v) ∈ req.headers ∧ trimSpace k ≠ "" ∧
        canonicalMIMEHeaderKey (trimSpace k) = "Content-Type" ∧ vs = [v]) ∧
    (∀ client fuel r, handleSend lib client fuel (some req) = some r →
      r.built = some httpReq) := by
  have hcond : ¬ (req.body ≠ "" ∧ normMethod lib req ≠ "GET" ∧ normMethod lib req ≠ "HEAD") := by
    rcases hm with h1 | h1 <;> simp [h1]
  have hb := hbuilt
  unfold buildRequest at hb
  simp only [] at hb
  split at hb
  · exact absurd hb (by simp)
  · try rw [if_neg hcond] at hb
    split at hb
    · exact absurd hb (by simp)
    · have hq : httpReq = _ := (Except.ok.inj hb).symm
      refine ⟨by rw [hq], ?_, ?_⟩
      · intro vs hin
        rw [hq] at hin
        have h1 := applyDefaults_get_head req.body (normMethod lib req) _ hm vs hin
        exact copyHeaders_mem req.headers req.headers [] (fun e he => he)
          (fun _ _ hnil => absurd hnil (List.not_mem_nil _)) "Content-Type" vs h1
      · intro client fuel r hr
        simp only [handleSend, hbuilt] at hr
        cases hdo : client.Do lib fuel httpReq with
        | none => simp [hdo] at hr
        | some d =>
          simp only [hdo] at hr
          cases hres : d.result with
          | error e => simp only [hres, Option.some.injEq] at hr; rw [← hr]
          | ok resp => simp only [hres, Option.some.injEq] at hr; rw [← hr]

/-- Witness of C2: a `get` request with a body and a caller-supplied
`content-type`. -/
theorem handleSend_get_head_no_body_witness :
    (normMethod asciiLib sampleGet = "GET" ∨ normMethod asciiLib sampleGet = "HEAD") ∧
    sampleGet.body ≠ "" ∧
    buildRequest asciiLib sampleGet = .ok sampleGetBuilt ∧
    sampleGetBuilt.body = none ∧
    (∀ vs, ("Content-Type", vs) ∈ sampleGetBuilt.header →
      ∃ k v, (k, v) ∈ sampleGet.headers ∧ trimSpace k ≠ "" ∧
        canonicalMIMEHeaderKey (trimSpace k) = "Content-Type" ∧ vs = [v]) :=
  ⟨Or.inl (by decide), by decide, by rfl,
   (handleSend_get_head_no_body asciiLib sampleGet sampleGetBuilt
     (Or.inl (by decide)) (by rfl)).1,
   (handleSend_get_head_no_body asciiLib sampleGet sampleGetBuilt
     (Or.inl (by decide)) (by rfl)).2.1⟩

theorem jsonRunes_of_valid (l : List UInt8) :
    ∀ k, utf8ValidFrom k l = true → jsonRunes k l = l := by
  induction l with
  | nil => intro k _; cases k <;> rfl
  | cons b bs ih =>
    intro k hv
    cases k with
    | succ k =>
      simp only [utf8ValidFrom] at hv
      simp only [jsonRunes, ih k hv]
    | zero =>
      unfold utf8ValidFrom at hv
      unfold jsonRunes
      cases hr : runeLen (b :: bs) with
      | zero => rw [hr] at hv; simp at hv
      | succ n =>
        rw [hr] at hv
        simp only at hv ⊢
        rw [ih n hv]

theorem valid_of_ascii (l : List UInt8) (h : ∀ b ∈ l, b.toNat < 128) :
    utf8ValidFrom 0 l = true := by
  induction l with
  | nil => rfl
  | cons b bs ih =>
    have hb : b.toNat < 128 := h b (List.mem_cons_self _ _)
    have hr : runeLen (b :: bs) = 1 := by
      simp [runeLen, hb]
    unfold utf8ValidFrom
    rw [hr]
    exact ih (fun c hc => h c (List.mem_cons_of_mem _ hc))

/-- C9 (amended): when the upstream call succeeds, the reply has `ok = true`, no
error and the upstream status, and its body is the JSON string made of the
first `min n 2097152` bytes of the `n` bytes the upstream body yields, in
order: a longer body is cut at exactly 2 MiB and a shorter one is taken
whole.  When these bytes are valid UTF-8 the body of the reply is exactly
these bytes; otherwise every byte that starts no well-formed UTF-8 sequence
reaches the client as U+FFFD. -/
theorem handleSend_body_cap (lib : Lib) (client : Client) (fuel : Nat) (req : SendRequest)
    (httpReq : HttpRequest) (d : DoResult) (resp : HttpResponse)
    (hbuilt : buildRequest lib req = .ok httpReq)
    (hdo : client.Do lib fuel httpReq = some d) (hres : d.result = .ok resp) :
    ∃ sr : SendResponse,
      handleSend lib client fuel (some req)
        = some { reply := .send sr, built := some httpReq, sent := d.sent } ∧
      sr.ok = true ∧ sr.error = "" ∧ sr.status = resp.statusCode ∧
      sr.statusText = resp.status ∧
      sr.body = jsonString (resp.body.data.take 2097152) ∧
      (resp.body.data.take 2097152).length = min resp.body.data.length 2097152 ∧
      (validUTF8 (resp.body.data.take 2097152) = true →
        sr.body = resp.body.data.take 2097152 ∧
        sr.body.length = min resp.body.data.length 2097152 ∧
        (2097152 < resp.body.data.length → sr.body.length = 2 * 1024 * 1024) ∧
        (resp.body.data.length ≤ 2097152 → sr.body = resp.body.data)) := by
  have hb : (readAll (limitReader resp.body (2 * 1024 * 1024))).1 = resp.body.data.take 2097152 := by
    unfold readAll limitReader
    split
    · rfl
    · rename_i hlt
      simp only [not_le] at hlt
      exact (List.take_of_length_le (by norm_num at hlt ⊢; omega)).symm
  have hs : handleSend lib client fuel (some req)
      = some { reply := .send { ok := true, error := "", status := resp.statusCode,
                                statusText := resp.status, durationMs := lib.elapsedMs httpReq,
                                headers := outHeaders resp.header,
                                body := jsonString (resp.body.data.take 2097152) },
               built := some httpReq, sent := d.sent } := by
    simp only [handleSend, hbuilt, hdo, hres, writeJSON, hb]
  refine ⟨_, hs, rfl, rfl, rfl, rfl, rfl, ?_, fun hv => ?_⟩
  · simp only [List.length_take]; omega
  · have hj : jsonString (resp.body.data.take 2097152) = resp.body.data.take 2097152 :=
      jsonRunes_of_valid _ 0 hv
    refine ⟨hj, ?_, ?_, ?_⟩
    · simp only [hj, List.length_take]; omega
    · intro hlt; simp only [hj, List.length_take]; omega
    · intro hle; simp only [hj]; exact List.take_of_length_le hle

theorem echo_do (resp : HttpResponse) (req : HttpRequest) :
    (newHTTPClient (echoNet resp)).Do asciiLib 10 req
      = some { sent := [req], result := .ok resp } := rfl

theorem valid_replicate_ascii (m : Nat) : validUTF8 (List.replicate m 65) = true := by
  refine valid_of_ascii _ (fun b hb => ?_)
  rw [List.eq_of_mem_replicate hb]
  decide

/-- Witness of C9 (amended): a body of 2 MiB and one byte, all `A`, is cut at
2 MiB. -/
theorem handleSend_body_cap_witness :
    buildRequest asciiLib sampleGet = .ok sampleGetBuilt ∧
    (newHTTPClient (echoNet longResponse)).Do asciiLib 10 sampleGetBuilt
      = some { sent := [sampleGetBuilt], result := .ok longResponse } ∧
    longResponse.body.data.length = 2097153 ∧
    ∃ sr : SendResponse,
      handleSend asciiLib (newHTTPClient (echoNet longResponse)) 10 (some sampleGet)
        = some { reply := .send sr, built := some sampleGetBuilt, sent := [sampleGetBuilt] } ∧
      sr.ok = true ∧ sr.status = 200 ∧
      sr.body = List.replicate 2097152 65 ∧ sr.body.length = 2097152 := by
  have hlen : longResponse.body.data.length = 2097153 :=
    List.length_replicate 2097153 (65 : UInt8)
  have htake : longResponse.body.data.take 2097152 = List.replicate 2097152 65 :=
    List.take_replicate 65 2097152 2097153
  have hvalid : validUTF8 (longResponse.body.data.take 2097152) = true := by
    rw [htake]
    exact valid_replicate_ascii 2097152
  have hbuilt : buildRequest asciiLib sampleGet = .ok sampleGetBuilt := by rfl
  obtain ⟨sr, h1, h2, _, h4, _, _, _, h8⟩ :=
    handleSend_body_cap asciiLib (newHTTPClient (echoNet longResponse)) 10 sampleGet
      sampleGetBuilt { sent := [sampleGetBuilt], result := .ok longResponse }
      longResponse hbuilt (echo_do longResponse sampleGetBuilt) rfl
  obtain ⟨g1, g2, _, _⟩ := h8 hvalid
  refine ⟨hbuilt, echo_do longResponse sampleGetBuilt, hlen, sr, h1, h2, h4, ?_, ?_⟩
  · rw [g1, htake]
  · rw [g2, hlen]
    exact Nat.min_eq_right (by omega)

/-- Counterexample to C9 as stated: the upstream body is the two bytes FF 68;
the body of the reply is EF BF BD 68, not the first two bytes of the upstream
body. -/
theorem binary_body_rewritten :
    (handleSend asciiLib (newHTTPClient (echoNet (okResponse [255, 104]))) 10
        (some sampleGet)).map (fun r => r.reply)
      = some (.send { ok := true, error := "", status := 200, statusText := "200 OK",
                      durationMs := 0, headers := [], body := [239, 191, 189, 104] }) ∧
    ([239, 191, 189, 104] : List UInt8) ≠ ([255, 104] : List UInt8).take (min 2 2097152) ∧
    validUTF8 [255, 104] = false := by
  decide

/-- C8 (amended): the redirect policy of `newHTTPClient` is consulted before
each redirect with the requests already made, the original first.  A chain of
`n` consecutive redirects is followed to its end for every `n ≤ 9`.  In a chain
of 10 or more it is the 10th redirect that is refused, after 10 requests, with
the error `stopped after 10 redirects`, which the proxy reports as `ok:false`
with that text at the end of `error`.  The client returns on every network. -/
theorem redirect_cap (lib : Lib) (tr : HttpRequest → RoundTrip) (r : Nat → HttpRequest)
    (n : Nat) (resp : HttpResponse) (fuel : Nat) (hfuel : 10 ≤ fuel)
    (hchain : ∀ i, i < n → tr (r i) = .redirect (r (i + 1)))
    (hend : tr (r n) = .answer resp) :
    (n ≤ 9 → (newHTTPClient tr).Do lib fuel (r 0)
      = some { sent := (List.range (n + 1)).map r, result := .ok resp }) ∧
    (10 ≤ n →
      (newHTTPClient tr).Do lib fuel (r 0)
        = some { sent := (List.range 10).map r,
                 result := .error (lib.urlErrorPrefix (r 0).method (r 10).url
                   ++ "stopped after 10 redirects") } ∧
      ∀ req, buildRequest lib req = .ok (r 0) →
        handleSend lib (newHTTPClient tr) fuel (some req)
          = some { reply := .send { ok := false,
                                    error := lib.urlErrorPrefix (r 0).method (r 10).url
                                      ++ "stopped after 10 redirects",
                                    status := 0, statusText := "",
                                    durationMs := lib.elapsedMs (r 0), headers := [], body := [] },
                   built := some (r 0), sent := (List.range 10).map r }) ∧
    (∀ req, ((newHTTPClient tr).Do lib fuel req).isSome = true) := by
  refine ⟨fun hn => ?_, fun hn => ?_, fun req => ?_⟩
  · exact doLoop_follow lib tr r n resp hn hchain hend n 0 fuel (by omega) (by omega)
  · have hdo := doLoop_refuse lib tr r n hn hchain 9 0 fuel (by omega) (by omega)
    refine ⟨hdo, fun req hb => ?_⟩
    have hdo2 : (newHTTPClient tr).Do lib fuel (r 0) = _ := hdo
    simp only [handleSend, hb, hdo2]
    rfl
  · exact doLoop_total lib tr 9 fuel req [] (by simp) (by omega)

/-- Witness of C8 (amended): a chain of 11 redirects. -/
theorem redirect_cap_witness :
    (10 ≤ 10) ∧
    (∀ i, i < 11 → chainNet 11 (okResponse []) (chainReq i) = .redirect (chainReq (i + 1))) ∧
    chainNet 11 (okResponse []) (chainReq 11) = .answer (okResponse []) ∧
    (newHTTPClient (chainNet 11 (okResponse []))).Do asciiLib 10 (chainReq 0)
      = some { sent := (List.range 10).map chainReq,
               result := .error (asciiLib.urlErrorPrefix "GET" (chainReq 10).url
                 ++ "stopped after 10 redirects") } :=
  ⟨le_refl 10, chainNet_step 11 (okResponse []), chainNet_end 11 (okResponse []),
   ((redirect_cap asciiLib (chainNet 11 (okResponse [])) chainReq 11 (okResponse []) 10
      (le_refl 10) (chainNet_step 11 (okResponse [])) (chainNet_end 11 (okResponse []))).2.1
      (by decide)).1⟩

/-- Counterexample to C8 as stated: in a chain of 10 consecutive redirects the
10th is refused; the final answer is not reached. -/
theorem tenth_redirect_refused :
    (∀ i, i < 10 → chainNet 10 (okResponse []) (chainReq i) = .redirect (chainReq (i + 1))) ∧
    chainNet 10 (okResponse []) (chainReq 10) = .answer (okResponse []) ∧
    (newHTTPClient (chainNet 10 (okResponse []))).Do asciiLib 10 (chainReq 0)
      = some { sent := (List.range 10).map chainReq,
               result := .error "Get \"http://a/xxxxxxxxxx\": stopped after 10 redirects" } ∧
    (newHTTPClient (chainNet 10 (okResponse []))).Do asciiLib 10 (chainReq 0)
      ≠ some { sent := (List.range 11).map chainReq, result := .ok (okResponse []) } := by
  have hdo : (newHTTPClient (chainNet 10 (okResponse []))).Do asciiLib 10 (chainReq 0)
      = some { sent := (List.range 10).map chainReq,
               result := .error "Get \"http://a/xxxxxxxxxx\": stopped after 10 redirects" } :=
    doLoop_refuse asciiLib (chainNet 10 (okResponse [])) chainReq 10 (le_refl 10)
      (chainNet_step 10 (okResponse [])) 9 0 10 (by omega) (by omega)
  refine ⟨chainNet_step 10 (okResponse []), chainNet_end 10 (okResponse []), hdo, ?_⟩
  rw [hdo]
  intro h
  have := congrArg (fun o => o.map (fun d => d.sent.length)) h
  simp at this

/-! ## The discovery task -/

theorem loop_rank (rest : List String) : (Loc.loop rest).rank ≤ 4 * rest.length + 3 := by
  cases rest <;> simp [Loc.loop, Loc.rank]; omega

theorem loop_beforeReset (rest : List String) : (Loc.loop rest).beforeReset = true := by
  cases rest <;> rfl

theorem discovering_ne (host : String) : "Discovering: " ++ host ≠ "discover_finished" := by
  intro h
  have := congrArg (fun s => s.data.head?) h
  simp at this

theorem ordinary_of_kind (v : DiscoverEvent) (hk : v.kind ≠ "info") :
    (Act.broadcast v).ordinary :=
  ⟨by simp, fun w hw hc => hk (by cases hw; exact hc.1)⟩

/-- Every control point before the deferred function has a step; the step is
ordinary and leads to a point that is closer to the end. -/
theorem step_progress (lib : Lib) (o : Obs) (loc : Loc) (hb : loc.beforeReset = true)
    (hne : ∀ p, loc ≠ .deferReset p) :
    ∃ act next, loc.step lib o = some (act, next) ∧ act.ordinary ∧
      next.beforeReset = true ∧ next.rank < loc.rank := by
  have k1 : ("suggestion" : String) ≠ "info" := by decide
  have k2 : ("warning" : String) ≠ "info" := by decide
  have k3 : ("probe" : String) ≠ "info" := by decide
  have k4 : ("probe_result" : String) ≠ "info" := by decide
  have k5 : ("finding" : String) ≠ "info" := by decide
  cases loc with
  | begin target =>
    refine ⟨_, _, rfl, ⟨by simp, fun w hw hc => ?_⟩, ?_, ?_⟩
    · cases hw; exact discovering_ne _ hc.2
    · split
      · rfl
      · exact loop_beforeReset _
    · split
      · show 3 < 16
        omega
      · have := loop_rank (probes (extractHost target))
        show (Loc.loop (probes (extractHost target))).rank < 16
        simp only [probes, List.length_cons, List.length_nil] at this
        simp only [probes]
        omega
  | known => exact ⟨_, _, rfl, ordinary_of_kind _ k1, rfl, show 2 < 3 by omega⟩
  | select p rest =>
    refine ⟨_, _, rfl, ⟨by simp, fun w hw => by cases hw⟩, ?_, ?_⟩
    · split <;> rfl
    · split
      · show 3 < 4 * rest.length + 7
        omega
      · show 4 * rest.length + 6 < 4 * rest.length + 7
        omega
  | cancelled => exact ⟨_, _, rfl, ordinary_of_kind _ k2, rfl, show 2 < 3 by omega⟩
  | announce p rest =>
    exact ⟨_, _, rfl, ordinary_of_kind _ k3, rfl,
      show 4 * rest.length + 5 < 4 * rest.length + 6 by omega⟩
  | request p rest =>
    refine ⟨_, _, rfl, ⟨by simp, fun w hw => by cases hw⟩, ?_, ?_⟩
    · split <;> rfl
    · split
      · show 2 < 4 * rest.length + 5
        omega
      · show 4 * rest.length + 4 < 4 * rest.length + 5
        omega
      · show 4 * rest.length + 4 < 4 * rest.length + 5
        omega
  | failed err rest =>
    refine ⟨_, _, rfl, ordinary_of_kind _ k2, loop_beforeReset _, ?_⟩
    have := loop_rank rest
    show (Loc.loop rest).rank < 4 * rest.length + 4
    omega
  | result p resp rest =>
    refine ⟨_, _, rfl, ordinary_of_kind _ k4, ?_, ?_⟩
    · split
      · rfl
      · exact loop_beforeReset _
    · split
      · show 3 < 4 * rest.length + 4
        omega
      · have := loop_rank rest
        show (Loc.loop rest).rank < 4 * rest.length + 4
        omega
  | finding p => exact ⟨_, _, rfl, ordinary_of_kind _ k5, rfl, show 2 < 3 by omega⟩
  | deferReset panicking => exact absurd rfl (hne panicking)
  | deferBroadcast panicking => simp [Loc.beforeReset] at hb
  | exit panicking => simp [Loc.beforeReset] at hb

theorem run_exit (lib : Lib) (obs : Nat → Obs) (fuel tick : Nat) (p : Bool) :
    Loc.run lib obs fuel tick (.exit p) = ([], .exit p) := by
  cases fuel <;> simp [Loc.run, Loc.step]

theorem run_deferReset (lib : Lib) (obs : Nat → Obs) (fuel tick : Nat) (p : Bool)
    (hf : 2 ≤ fuel) :
    Loc.run lib obs fuel tick (.deferReset p)
      = ([.reset, .broadcast (finishedEvent (obs (tick + 1)).now)], .exit p) := by
  obtain ⟨f, rfl⟩ : ∃ f, fuel = f + 2 := ⟨fuel - 2, by omega⟩
  simp [Loc.run, Loc.step, run_exit]

/-- From every control point before the deferred reset, a run with enough fuel
ends at `exit`, and its steps are ordinary steps followed by the reset and the
broadcast of `discover_finished`. -/
theorem run_shape (lib : Lib) (obs : Nat → Obs) :
    ∀ (fuel tick : Nat) (loc : Loc), loc.beforeReset = true → loc.rank ≤ fuel →
      ∃ (body : List Act) (now : String) (panicking : Bool),
        Loc.run lib obs fuel tick loc
          = (body ++ [.reset, .broadcast (finishedEvent now)], .exit panicking) ∧
        ∀ a ∈ body, a.ordinary := by
  intro fuel
  induction fuel with
  | zero =>
    intro tick loc hb hr
    cases loc <;> simp [Loc.rank, Loc.beforeReset] at hr hb
  | succ fuel ih =>
    intro tick loc hb hr
    by_cases hd : ∃ p, loc = .deferReset p
    · obtain ⟨p, rfl⟩ := hd
      exact ⟨[], _, p, run_deferReset lib obs (fuel + 1) tick p (by simpa [Loc.rank] using hr),
        by simp⟩
    · have hne : ∀ p, loc ≠ .deferReset p := fun p hp => hd ⟨p, hp⟩
      obtain ⟨act, next, hs, hord, hnb, hrk⟩ := step_progress lib (obs tick) loc hb hne
      obtain ⟨body, now, pan, hrun, hbody⟩ := ih (tick + 1) next hnb (by omega)
      refine ⟨act :: body, now, pan, ?_, ?_⟩
      · simp [Loc.run, hs, hrun]
      · intro a ha
        rcases List.mem_cons.mp ha with rfl | ha
        · exact hord
        · exact hbody a ha

theorem eventsOf_append (a b : List Act) : eventsOf (a ++ b) = eventsOf a ++ eventsOf b := by
  induction a with
  | nil => rfl
  | cons x a ih => cases x <;> simp [eventsOf, ih]

theorem eventsOf_ordinary (body : List Act) (hbody : ∀ a ∈ body, a.ordinary) :
    ∀ v ∈ eventsOf body, ¬ (v.kind = "info" ∧ v.message = "discover_finished") := by
  induction body with
  | nil => intro v hv; simp [eventsOf] at hv
  | cons x body ih =>
    have ih1 := ih (fun a ha => hbody a (List.mem_cons_of_mem _ ha))
    have hx := hbody x (List.mem_cons_self _ _)
    intro v hv
    cases x with
    | broadcast w =>
      simp only [eventsOf, List.mem_cons] at hv
      rcases hv with rfl | hv
      · exact hx.2 v rfl
      · exact ih1 v hv
    | poll d => exact ih1 v (by simpa [eventsOf] using hv)
    | request u o => exact ih1 v (by simpa [eventsOf] using hv)
    | reset => exact ih1 v (by simpa [eventsOf] using hv)

theorem act_ordinary_keeps (marshal : DiscoverEvent → List UInt8) (h : DiscoverHub) (a : Act)
    (ha : a ≠ .reset) :
    (h.act marshal a).running = h.running ∧ (h.act marshal a).cancel = h.cancel := by
  cases a with
  | broadcast v => exact ⟨rfl, rfl⟩
  | poll d => exact ⟨rfl, rfl⟩
  | request u o => exact ⟨rfl, rfl⟩
  | reset => exact absurd rfl ha

/-- C4: every run of the background task, whatever the target, the probe
outcomes and the moments at which the context is seen cancelled, ends (within
sixteen steps, also on the panic path), and the events it broadcasts contain
the info event `discover_finished` exactly once, as the last one; the step
the task takes right before that broadcast is the reset of the engine state:
whatever the hub was, after the steps of the task up to that broadcast it
has `running = false` and `cancel = none`. -/
theorem task_finishes_once (lib : Lib) (marshal : DiscoverEvent → List UInt8)
    (obs : Nat → Obs) (target : String) :
    ∃ (body : List Act) (now : String) (panicking : Bool),
      taskRun lib obs target
        = (body ++ [.reset, .broadcast (finishedEvent now)], .exit panicking) ∧
      eventsOf (taskRun lib obs target).1 = eventsOf body ++ [finishedEvent now] ∧
      (∀ v ∈ eventsOf body, ¬ (v.kind = "info" ∧ v.message = "discover_finished")) ∧
      ((eventsOf (taskRun lib obs target).1).filter
        (fun v => decide (v.kind = "info" ∧ v.message = "discover_finished"))).length = 1 ∧
      (∀ h : DiscoverHub,
        ((body ++ [Act.reset]).foldl (DiscoverHub.act marshal) h).running = false ∧
        ((body ++ [Act.reset]).foldl (DiscoverHub.act marshal) h).cancel = none) := by
  obtain ⟨body, now, pan, hrun, hbody⟩ :=
    run_shape lib obs 16 0 (.begin (trimSpace target)) rfl (le_refl 16)
  have hrun2 : taskRun lib obs target
      = (body ++ [.reset, .broadcast (finishedEvent now)], .exit pan) := hrun
  have hev : eventsOf (taskRun lib obs target).1 = eventsOf body ++ [finishedEvent now] := by
    rw [hrun2, eventsOf_append]; rfl
  have hno := eventsOf_ordinary body hbody
  refine ⟨body, now, pan, hrun2, hev, hno, ?_, fun h => ?_⟩
  · rw [hev, List.filter_append]
    have hnil : (eventsOf body).filter
        (fun v => decide (v.kind = "info" ∧ v.message = "discover_finished")) = [] := by
      rw [List.filter_eq_nil_iff]
      intro v hv
      simpa using hno v hv
    rw [hnil]
    rfl
  · rw [List.foldl_append]
    exact ⟨rfl, rfl⟩

/-- Witness of C4: the known domain, and a host whose first probe answers with
an OpenAPI document. -/
theorem task_finishes_once_witness :
    eventsOf (taskRun asciiLib openapiObs " https://www.openai.com/docs ").1
      = [discoveringEvent "openai.com" "t", knownDomainEvent "t", finishedEvent "t"] ∧
    eventsOf (taskRun asciiLib openapiObs "https://example.test").1
      = [discoveringEvent "example.test" "t",
         probeEvent "https://example.test/openapi.json" "t",
         probeResultEvent 200 "application/json" "t",
         findingEvent "https://example.test/openapi.json" "t",
         finishedEvent "t"] ∧
    (∃ (body : List Act) (now : String) (panicking : Bool),
      taskRun asciiLib openapiObs "https://example.test"
        = (body ++ [.reset, .broadcast (finishedEvent now)], .exit panicking)) := by
  refine ⟨by decide, by decide, ?_⟩
  obtain ⟨body, now, pan, h, _⟩ :=
    task_finishes_once asciiLib messageBytes openapiObs "https://example.test"
  exact ⟨body, now, pan, h⟩

/-- The first step of a run on a host other than the known domain. -/
theorem begin_run (lib : Lib) (obs : Nat → Obs) (target : String)
    (hhost : discoverHost target ≠ "openai.com") (fuel : Nat) :
    Loc.run lib obs (fuel + 1) 0 (.begin (trimSpace target))
      = (.broadcast (discoveringEvent (discoverHost target) (obs 0).now)
          :: (Loc.run lib obs fuel 1 (Loc.loop (probes (discoverHost target)))).1,
         (Loc.run lib obs fuel 1 (Loc.loop (probes (discoverHost target)))).2) := by
  have h : extractHost (trimSpace target) ≠ "openai.com" := hhost
  simp [Loc.run, Loc.step, h, discoverHost]

/-- The run when every probe fails and the cancellation comes before the first
check. -/
theorem fail_run_first (lib : Lib) (target : String) (k : Nat) (now err : Nat → String)
    (hhost : discoverHost target ≠ "openai.com") (hk : k ≤ 1) :
    taskRun lib (cancelObs k now err) target
      = ([.broadcast (discoveringEvent (discoverHost target) (now 0)),
          .poll true,
          .broadcast (cancelledEvent (now 2)),
          .reset,
          .broadcast (finishedEvent (now 4))], .exit false) := by
  have d1 : decide (k ≤ 1) = true := by simpa using hk
  unfold taskRun
  rw [begin_run lib _ target hhost]
  simp [Loc.run, Loc.step, cancelObs, d1, Loc.loop, probes]

/-- The run when every probe fails and the cancellation comes after the first
check and before the second. -/
theorem fail_run_second (lib : Lib) (target : String) (k : Nat) (now err : Nat → String)
    (hhost : discoverHost target ≠ "openai.com") (h1 : 2 ≤ k) (h2 : k ≤ 5) :
    taskRun lib (cancelObs k now err) target
      = ([.broadcast (discoveringEvent (discoverHost target) (now 0)),
          .poll false,
          .broadcast (probeEvent ("https://" ++ discoverHost target ++ "/openapi.json") (now 2)),
          .request ("https://" ++ discoverHost target ++ "/openapi.json") (.fail (err 3)),
          .broadcast (failEvent (err 3) (now 4)),
          .poll true,
          .broadcast (cancelledEvent (now 6)),
          .reset,
          .broadcast (finishedEvent (now 8))], .exit false) := by
  have d1 : decide (k ≤ 1) = false := by simp; omega
  have d5 : decide (k ≤ 5) = true := by simpa using h2
  unfold taskRun
  rw [begin_run lib _ target hhost]
  simp [Loc.run, Loc.step, cancelObs, d1, d5, Loc.loop, probes]

/-- The run when every probe fails and the cancellation comes after the second
check and before the third. -/
theorem fail_run_third (lib : Lib) (target : String) (k : Nat) (now err : Nat → String)
    (hhost : discoverHost target ≠ "openai.com") (h1 : 6 ≤ k) (h2 : k ≤ 9) :
    taskRun lib (cancelObs k now err) target
      = ([.broadcast (discoveringEvent (discoverHost target) (now 0)),
          .poll false,
          .broadcast (probeEvent ("https://" ++ discoverHost target ++ "/openapi.json") (now 2)),
          .request ("https://" ++ discoverHost target ++ "/openapi.json") (.fail (err 3)),
          .broadcast (failEvent (err 3) (now 4)),
          .poll false,
          .broadcast (probeEvent ("https://" ++ discoverHost target ++ "/swagger.json") (now 6)),
          .request ("https://" ++ discoverHost target ++ "/swagger.json") (.fail (err 7)),
          .broadcast (failEvent (err 7) (now 8)),
          .poll true,
          .broadcast (cancelledEvent (now 10)),
          .reset,
          .broadcast (finishedEvent (now 12))], .exit false) := by
  have d1 : decide (k ≤ 1) = false := by simp; omega
  have d5 : decide (k ≤ 5) = false := by simp; omega
  have d9 : decide (k ≤ 9) = true := by simpa using h2
  unfold taskRun
  rw [begin_run lib _ target hhost]
  simp [Loc.run, Loc.step, cancelObs, d1, d5, d9, Loc.loop, probes]

/-- The run when every probe fails and the cancellation comes after the third
check (or not at all). -/
theorem fail_run_late (lib : Lib) (target : String) (k : Nat) (now err : Nat → String)
    (hhost : discoverHost target ≠ "openai.com") (h1 : 10 ≤ k) :
    taskRun lib (cancelObs k now err) target
      = ([.broadcast (discoveringEvent (discoverHost target) (now 0)),
          .poll false,
          .broadcast (probeEvent ("https://" ++ discoverHost target ++ "/openapi.json") (now 2)),
          .request ("https://" ++ discoverHost target ++ "/openapi.json") (.fail (err 3)),
          .broadcast (failEvent (err 3) (now 4)),
          .poll false,
          .broadcast (probeEvent ("https://" ++ discoverHost target ++ "/swagger.json") (now 6)),
          .request ("https://" ++ discoverHost target ++ "/swagger.json") (.fail (err 7)),
          .broadcast (failEvent (err 7) (now 8)),
          .poll false,
          .broadcast (probeEvent ("https://" ++ discoverHost target ++ "/docs") (now 10)),
          .request ("https://" ++ discoverHost target ++ "/docs") (.fail (err 11)),
          .broadcast (failEvent (err 11) (now 12)),
          .reset,
          .broadcast (finishedEvent (now 14))], .exit false) := by
  have d1 : decide (k ≤ 1) = false := by simp; omega
  have d5 : decide (k ≤ 5) = false := by simp; omega
  have d9 : decide (k ≤ 9) = false := by simp; omega
  unfold taskRun
  rw [begin_run lib _ target hhost]
  simp [Loc.run, Loc.step, cancelObs, d1, d5, d9, Loc.loop, probes]

theorem fail_ne_cancelled (e : String) : "fail: " ++ e ≠ "discover_cancelled" := by
  intro h
  have := congrArg (fun s => s.data.head?) h
  simp at this

theorem get_ne_cancelled (p : String) : "GET " ++ p ≠ "discover_cancelled" := by
  intro h
  have := congrArg (fun s => s.data.head?) h
  simp at this

theorem discovering_ne_cancelled (host : String) :
    "Discovering: " ++ host ≠ "discover_cancelled" := by
  intro h
  have := congrArg (fun s => s.data.head?) h
  simp at this

/-- C10 (amended): on a host other than `openai.com` whose probes all fail in
transport, with the cancel handle fired just before step `k` of the task.  If
it fires before the cancellation check of the third probe is made (`k ≤ 9`),
the events end with the warning `discover_cancelled` followed by the info
event `discover_finished`, and no `probe` event is broadcast after the step
that follows the cancellation (the one probe whose check had already passed
may still be announced).  If it fires later, while the third probe is
announced, in flight or reported (`10 ≤ k`), no `discover_cancelled` is
broadcast: the events end with the failure of the third probe followed by
`discover_finished`. -/
theorem cancel_seen_at_probe_boundary (lib : Lib) (target : String) (k : Nat)
    (now err : Nat → String) (hhost : discoverHost target ≠ "openai.com") :
    (k ≤ 9 →
      (∃ (pre : List DiscoverEvent) (t1 t2 : String),
        eventsOf (taskRun lib (cancelObs k now err) target).1
          = pre ++ [cancelledEvent t1, finishedEvent t2]) ∧
      (∀ v ∈ eventsOf ((taskRun lib (cancelObs k now err) target).1.drop (k + 1)),
        v.kind ≠ "probe")) ∧
    (10 ≤ k →
      (∀ v ∈ eventsOf (taskRun lib (cancelObs k now err) target).1,
        v.message ≠ "discover_cancelled") ∧
      (∃ (pre : List DiscoverEvent) (t1 t2 : String),
        eventsOf (taskRun lib (cancelObs k now err) target).1
          = pre ++ [failEvent (err 11) t1, finishedEvent t2])) ∧
    (taskRun lib (cancelObs k now err) target).2 = .exit false := by
  have n1 : ("warning" : String) ≠ "probe" := by decide
  have n2 : ("info" : String) ≠ "probe" := by decide
  have c1 : ("discover_finished" : String) ≠ "discover_cancelled" := by decide
  by_cases hA : k ≤ 1
  · have hr := fail_run_first lib target k now err hhost hA
    refine ⟨fun _ => ⟨⟨[discoveringEvent (discoverHost target) (now 0)], now 2, now 4, ?_⟩, ?_⟩,
      fun h => absurd h (by omega), by rw [hr]⟩
    · rw [hr]; rfl
    · rw [hr]
      interval_cases k <;>
        simp [eventsOf, cancelledEvent, finishedEvent, n1, n2]
  by_cases hB : k ≤ 5
  · have hr := fail_run_second lib target k now err hhost (by omega) hB
    refine ⟨fun _ => ⟨⟨[discoveringEvent (discoverHost target) (now 0),
        probeEvent ("https://" ++ discoverHost target ++ "/openapi.json") (now 2),
        failEvent (err 3) (now 4)], now 6, now 8, ?_⟩, ?_⟩,
      fun h => absurd h (by omega), by rw [hr]⟩
    · rw [hr]; rfl
    · rw [hr]
      interval_cases k <;>
        simp [eventsOf, cancelledEvent, finishedEvent, failEvent, n1, n2]
  by_cases hC : k ≤ 9
  · have hr := fail_run_third lib target k now err hhost (by omega) hC
    refine ⟨fun _ => ⟨⟨[discoveringEvent (discoverHost target) (now 0),
        probeEvent ("https://" ++ discoverHost target ++ "/openapi.json") (now 2),
        failEvent (err 3) (now 4),
        probeEvent ("https://" ++ discoverHost target ++ "/swagger.json") (now 6),
        failEvent (err 7) (now 8)], now 10, now 12, ?_⟩, ?_⟩,
      fun h => absurd h (by omega), by rw [hr]⟩
    · rw [hr]; rfl
    · rw [hr]
      interval_cases k <;>
        simp [eventsOf, cancelledEvent, finishedEvent, failEvent, n1, n2]
  · have hr := fail_run_late lib target k now err hhost (by omega)
    refine ⟨fun h => absurd h hC, fun _ => ⟨?_, ⟨[discoveringEvent (discoverHost target) (now 0),
        probeEvent ("https://" ++ discoverHost target ++ "/openapi.json") (now 2),
        failEvent (err 3) (now 4),
        probeEvent ("https://" ++ discoverHost target ++ "/swagger.json") (now 6),
        failEvent (err 7) (now 8),
        probeEvent ("https://" ++ discoverHost target ++ "/docs") (now 10)], now 12, now 14, ?_⟩⟩,
      by rw [hr]⟩
    · rw [hr]
      simp [eventsOf, discoveringEvent, probeEvent, failEvent, finishedEvent,
        fail_ne_cancelled, get_ne_cancelled, discovering_ne_cancelled, c1]
    · rw [hr]; rfl

/-- Witness of C10 (amended): cancellation while the second probe is announced. -/
theorem cancel_seen_at_probe_boundary_witness :
    discoverHost "example.test" ≠ "openai.com" ∧
    (∃ (pre : List DiscoverEvent) (t1 t2 : String),
      eventsOf (taskRun asciiLib (cancelObs 6 (fun _ => "") (fun _ => "connection refused"))
        "example.test").1 = pre ++ [cancelledEvent t1, finishedEvent t2]) ∧
    (∀ v ∈ eventsOf ((taskRun asciiLib (cancelObs 6 (fun _ => "") (fun _ => "connection refused"))
        "example.test").1.drop (6 + 1)), v.kind ≠ "probe") :=
  ⟨by decide,
   (cancel_seen_at_probe_boundary asciiLib "example.test" 6 (fun _ => "")
     (fun _ => "connection refused") (by decide)).1 (by decide)⟩

/-- Counterexample to C10 as stated: the cancel handle fires while the third
probe is in flight (just before step 11 of 15, the request of the third
probe); the task broadcasts no `discover_cancelled`.  And when it fires
between the check and the announcement of the first probe (just before step
2), the `probe` event of that probe is still broadcast after it. -/
theorem cancel_during_third_probe_unreported :
    discoverHost "example.test" ≠ "openai.com" ∧
    (taskRun asciiLib (cancelObs 11 (fun _ => "") (fun _ => "connection refused"))
      "example.test").1.length = 15 ∧
    (taskRun asciiLib (cancelObs 11 (fun _ => "") (fun _ => "connection refused"))
      "example.test").1.get? 11
        = some (.request "https://example.test/docs" (.fail "connection refused")) ∧
    (∀ v ∈ eventsOf (taskRun asciiLib (cancelObs 11 (fun _ => "") (fun _ => "connection refused"))
      "example.test").1, v.message ≠ "discover_cancelled") ∧
    (taskRun asciiLib (cancelObs 2 (fun _ => "") (fun _ => "connection refused"))
      "example.test").1.get? 2
        = some (.broadcast (probeEvent "https://example.test/openapi.json" "")) := by
  decide

/-! ## The engine -/

theorem countP_set_of_get {α : Type} (f : α → Bool) (l : List α) (i : Nat) (t t1 : α)
    (hg : l.get? i = some t) :
    (l.set i t1).countP f + (if f t then 1 else 0) = l.countP f + (if f t1 then 1 else 0) := by
  obtain ⟨hi, ht⟩ := List.get?_eq_some.mp hg
  have hdec : l = l.take i ++ t :: l.drop (i + 1) := by
    have h1 := List.drop_eq_getElem_cons hi
    have h2 : l[i] = t := ht
    rw [h2] at h1
    rw [← h1, List.take_append_drop]
  have hset : l.set i t1 = l.take i ++ t1 :: l.drop (i + 1) := by
    rw [List.set_eq_take_append_cons_drop, if_pos hi]
  rw [hset]
  conv_rhs => rw [hdec]
  simp only [List.countP_append, List.countP_cons]
  omega

theorem countP_eraseIdx_of_get {α : Type} (f : α → Bool) (l : List α) (i : Nat) (t : α)
    (hg : l.get? i = some t) :
    (l.eraseIdx i).countP f + (if f t then 1 else 0) = l.countP f := by
  obtain ⟨hi, ht⟩ := List.get?_eq_some.mp hg
  have hdec : l = l.take i ++ t :: l.drop (i + 1) := by
    have h1 := List.drop_eq_getElem_cons hi
    have h2 : l[i] = t := ht
    rw [h2] at h1
    rw [← h1, List.take_append_drop]
  rw [List.eraseIdx_eq_take_drop_succ]
  conv_rhs => rw [hdec]
  simp only [List.countP_append, List.countP_cons]
  omega

theorem working_length (s : Sys) :
    s.working.length = s.tasks.countP (fun t => t.loc.beforeReset) := by
  unfold Sys.working
  rw [List.countP_eq_length_filter]

theorem inv_idle (clients : List (Nat × sseClient)) : (Sys.idle clients).Inv := by
  simp [Sys.Inv, Sys.idle, Sys.working, NewDiscoverHub]

theorem start_cases (h : DiscoverHub) (ctx : Nat) (decoded : Option DiscoverRequest) :
    (∃ reply, h.start ctx decoded = (reply, h, none)) ∨
    (h.running = false ∧ ∃ target,
      h.start ctx decoded = (.status "started", { h with running := true, cancel := some ctx },
        some { ctx := ctx, loc := .begin target })) := by
  unfold DiscoverHub.start
  cases decoded with
  | none => exact Or.inl ⟨_, rfl⟩
  | some req =>
    simp only
    split
    · exact Or.inl ⟨_, rfl⟩
    · split
      · exact Or.inl ⟨_, rfl⟩
      · rename_i _ hrun
        exact Or.inr ⟨by simpa using hrun, _, rfl⟩

theorem inv_start (s : Sys) (decoded : Option DiscoverRequest) (h : s.Inv) :
    (s.start decoded).1.Inv := by
  unfold Sys.start
  rcases start_cases s.hub s.ctxs decoded with ⟨reply, hr⟩ | ⟨hrun, target, hr⟩
  · rw [hr]
    exact h
  · rw [hr]
    obtain ⟨h1, _⟩ := h
    rw [hrun] at h1
    unfold Sys.working at h1
    simp only [Sys.Inv, Sys.working, List.filter_append, List.length_append]
    refine ⟨?_, rfl⟩
    rw [h1]
    rfl

theorem inv_stop (s : Sys) (h : s.Inv) : s.stop.1.Inv := by
  unfold Sys.stop DiscoverHub.stop
  split
  · exact h
  · exact h

theorem inv_taskStep (lib : Lib) (marshal : DiscoverEvent → List UInt8) (s : Sys) (i : Nat)
    (now : String) (outcome : ProbeOutcome) (h : s.Inv) :
    (s.taskStep lib marshal i now outcome).Inv := by
  unfold Sys.taskStep
  cases hg : s.tasks.get? i with
  | none => exact h
  | some t =>
    simp only
    generalize ho : (Obs.mk (decide (t.ctx ∈ s.cancelled)) now outcome) = o
    obtain ⟨h1, h2⟩ := h
    rw [working_length] at h1
    by_cases hb : t.loc.beforeReset = true
    · by_cases hd : ∃ p, t.loc = .deferReset p
      · obtain ⟨p, hp⟩ := hd
        have hst : t.loc.step lib o = some (.reset, .deferBroadcast p) := by
          rw [hp]; rfl
        rw [hst]
        simp only
        have hc := countP_set_of_get (fun t => t.loc.beforeReset) s.tasks i t
          { t with loc := .deferBroadcast p } hg
        simp only [hb, if_true] at hc
        refine ⟨?_, rfl⟩
        rw [working_length]
        simp only [DiscoverHub.act]
        have hf : (Loc.deferBroadcast p).beforeReset = false := rfl
        simp only [hf] at hc
        split at h1 <;> simp only [Bool.false_eq_true, if_false] at hc ⊢ <;> omega
      · have hne : ∀ p, t.loc ≠ .deferReset p := fun p hp => hd ⟨p, hp⟩
        obtain ⟨act, next, hst, hord, hnb, _⟩ := step_progress lib o t.loc hb hne
        rw [hst]
        have hk := act_ordinary_keeps marshal s.hub act hord.1
        have hc := countP_set_of_get (fun t => t.loc.beforeReset) s.tasks i t
          { t with loc := next } hg
        simp only [hb, hnb, if_true] at hc
        have hres : (Sys.mk (s.hub.act marshal act) s.ctxs s.cancelled
            (s.tasks.set i { t with loc := next }) s.crashed).Inv := by
          refine ⟨?_, ?_⟩
          · rw [working_length]
            simp only [hk.1]
            rw [← h1]
            omega
          · simp only [hk.1, hk.2]
            exact h2
        cases next with
        | exit p => simp [Loc.beforeReset] at hnb
        | _ => exact hres
    · have hb2 : t.loc.beforeReset = false := by simpa using hb
      cases hl : t.loc with
      | deferBroadcast p =>
        have hst : (Loc.deferBroadcast p).step lib o
            = some (.broadcast (finishedEvent o.now), .exit p) := rfl
        rw [hst]
        simp only
        have hc := countP_eraseIdx_of_get (fun t => t.loc.beforeReset) s.tasks i t hg
        simp only [hb2, Bool.false_eq_true, if_false, Nat.add_zero] at hc
        refine ⟨?_, h2⟩
        rw [working_length]
        simp only [DiscoverHub.act, DiscoverHub.broadcast]
        rw [hc, h1]
      | exit p =>
        have hst : (Loc.exit p).step lib o = none := rfl
        rw [hst]
        exact ⟨by rw [working_length]; exact h1, h2⟩
      | _ => rw [hl] at hb2; simp [Loc.beforeReset] at hb2

theorem inv_step (lib : Lib) (marshal : DiscoverEvent → List UInt8) (s : Sys) (l : Label)
    (h : s.Inv) : (s.step lib marshal l).Inv := by
  cases l with
  | start decoded =>
    show (if s.crashed then s else (s.start decoded).1).Inv
    split
    · exact h
    · exact inv_start s decoded h
  | stop =>
    show (if s.crashed then s else s.stop.1).Inv
    split
    · exact h
    · exact inv_stop s h
  | task i now outcome =>
    show (if s.crashed then s else s.taskStep lib marshal i now outcome).Inv
    split
    · exact h
    · exact inv_taskStep lib marshal s i now outcome h

theorem inv_exec (lib : Lib) (marshal : DiscoverEvent → List UInt8) (ls : List Label) :
    ∀ s : Sys, s.Inv → (s.exec lib marshal ls).Inv := by
  induction ls with
  | nil => intro s h; exact h
  | cons l ls ih =>
    intro s h
    exact ih _ (inv_step lib marshal s l h)

theorem alive_start (s : Sys) (decoded : Option DiscoverRequest) (h : s.Alive) :
    (s.start decoded).1.Alive := by
  unfold Sys.start
  rcases start_cases s.hub s.ctxs decoded with ⟨reply, hr⟩ | ⟨_, target, hr⟩
  · rw [hr]
    exact h
  · rw [hr]
    intro t ht p
    simp only [List.mem_append, List.mem_singleton] at ht
    rcases ht with ht | rfl
    · exact h t ht p
    · intro hp; cases hp

theorem alive_stop (s : Sys) (h : s.Alive) : s.stop.1.Alive := by
  unfold Sys.stop DiscoverHub.stop
  split
  · exact h
  · exact h

theorem alive_taskStep (lib : Lib) (marshal : DiscoverEvent → List UInt8) (s : Sys) (i : Nat)
    (now : String) (outcome : ProbeOutcome) (h : s.Alive) :
    (s.taskStep lib marshal i now outcome).Alive := by
  unfold Sys.taskStep
  cases hg : s.tasks.get? i with
  | none => exact h
  | some t =>
    simp only
    generalize (Obs.mk (decide (t.ctx ∈ s.cancelled)) now outcome) = o
    cases hst : t.loc.step lib o with
    | none => exact h
    | some an =>
      obtain ⟨act, next⟩ := an
      have hset : ∀ q, (∀ p, q ≠ Loc.exit p) →
          (Sys.mk (s.hub.act marshal act) s.ctxs s.cancelled
            (s.tasks.set i { t with loc := q }) s.crashed).Alive := by
        intro q hq u hu p
        rcases List.mem_or_eq_of_mem_set hu with hu | rfl
        · exact h u hu p
        · exact hq p
      cases next with
      | exit p =>
        intro u hu q
        exact h u (List.mem_of_mem_eraseIdx hu) q
      | begin tg => exact hset _ (fun p hp => by cases hp)
      | known => exact hset _ (fun p hp => by cases hp)
      | select a r => exact hset _ (fun p hp => by cases hp)
      | cancelled => exact hset _ (fun p hp => by cases hp)
      | announce a r => exact hset _ (fun p hp => by cases hp)
      | request a r => exact hset _ (fun p hp => by cases hp)
      | failed a r => exact hset _ (fun p hp => by cases hp)
      | result a b r => exact hset _ (fun p hp => by cases hp)
      | finding a => exact hset _ (fun p hp => by cases hp)
      | deferReset a => exact hset _ (fun p hp => by cases hp)
      | deferBroadcast a => exact hset _ (fun p hp => by cases hp)

theorem alive_exec (lib : Lib) (marshal : DiscoverEvent → List UInt8) (ls : List Label) :
    ∀ s : Sys, s.Alive → (s.exec lib marshal ls).Alive := by
  induction ls with
  | nil => intro s h; exact h
  | cons l ls ih =>
    intro s h
    refine ih _ ?_
    cases l with
    | start decoded =>
      show (if s.crashed then s else (s.start decoded).1).Alive
      split
      · exact h
      · exact alive_start s decoded h
    | stop =>
      show (if s.crashed then s else s.stop.1).Alive
      split
      · exact h
      · exact alive_stop s h
    | task i now outcome =>
      show (if s.crashed then s else s.taskStep lib marshal i now outcome).Alive
      split
      · exact h
      · exact alive_taskStep lib marshal s i now outcome h

/-- C3 (amended): for a non-blank target, `start` on an engine marked running
replies 409 `already running` and changes nothing (no task is launched,
nothing is broadcast); `start` on an idle engine replies `started`, sets
`running = true`, stores a fresh cancel handle, launches exactly one task and
broadcasts nothing itself; of two start calls in a row the first gets
`started` and the second 409.  In every state reachable from the idle state
through start, stop and steps of the launched tasks, at most one live task has
not yet run the reset of its deferred function, the engine is marked running
exactly when there is one, the cancel handle is stored exactly then, and
every other live task has only its `discover_finished` broadcast left. -/
theorem start_exclusive (lib : Lib) (marshal : DiscoverEvent → List UInt8)
    (clients : List (Nat × sseClient)) (target : String) (hblank : trimSpace target ≠ "") :
    (∀ (h : DiscoverHub) (ctx : Nat), h.running = true →
      h.start ctx (some { target := target }) = (.error "already running" 409, h, none)) ∧
    (∀ (h : DiscoverHub) (ctx : Nat), h.running = false →
      h.start ctx (some { target := target })
        = (.status "started", { h with running := true, cancel := some ctx },
           some { ctx := ctx, loc := .begin (trimSpace target) })) ∧
    ((Sys.idle clients).start (some { target := target })).2 = .status "started" ∧
    (((Sys.idle clients).start (some { target := target })).1.start
      (some { target := target }))
        = (((Sys.idle clients).start (some { target := target })).1,
           .error "already running" 409) ∧
    (∀ ls : List Label,
      ((Sys.idle clients).exec lib marshal ls).working.length ≤ 1 ∧
      (((Sys.idle clients).exec lib marshal ls).hub.running = true ↔
        ((Sys.idle clients).exec lib marshal ls).working.length = 1) ∧
      (((Sys.idle clients).exec lib marshal ls).hub.running = false ↔
        ((Sys.idle clients).exec lib marshal ls).hub.cancel = none) ∧
      (∀ t ∈ ((Sys.idle clients).exec lib marshal ls).tasks,
        t ∈ ((Sys.idle clients).exec lib marshal ls).working ∨
          ∃ p, t.loc = .deferBroadcast p)) := by
  have hrun : ∀ (h : DiscoverHub) (ctx : Nat), h.running = true →
      h.start ctx (some { target := target }) = (.error "already running" 409, h, none) := by
    intro h ctx hr
    simp [DiscoverHub.start, hblank, hr]
  have hidle : ∀ (h : DiscoverHub) (ctx : Nat), h.running = false →
      h.start ctx (some { target := target })
        = (.status "started", { h with running := true, cancel := some ctx },
           some { ctx := ctx, loc := .begin (trimSpace target) }) := by
    intro h ctx hr
    simp [DiscoverHub.start, hblank, hr]
  have hfirst : (Sys.idle clients).start (some { target := target })
      = ({ Sys.idle clients with
            hub := { (Sys.idle clients).hub with running := true, cancel := some 0 }
            ctxs := 1
            tasks := [{ ctx := 0, loc := .begin (trimSpace target) }] },
         .status "started") := by
    unfold Sys.start
    rw [hidle (Sys.idle clients).hub (Sys.idle clients).ctxs rfl]
    rfl
  refine ⟨hrun, hidle, ?_, ?_, fun ls => ?_⟩
  · rw [hfirst]
  · rw [hfirst]
    simp only [Sys.start]
    rw [hrun _ _ rfl]
  · obtain ⟨h1, h2⟩ := inv_exec lib marshal ls _ (inv_idle clients)
    have halive := alive_exec lib marshal ls (Sys.idle clients)
      (fun t ht => absurd ht (List.not_mem_nil t))
    refine ⟨?_, ?_, ?_, ?_⟩
    · rw [h1]; split <;> omega
    · rw [h1]
      cases ((Sys.idle clients).exec lib marshal ls).hub.running <;> simp
    · rw [← h2]
      cases ((Sys.idle clients).exec lib marshal ls).hub.cancel <;> simp
    · intro t ht
      by_cases hb : t.loc.beforeReset = true
      · exact Or.inl (List.mem_filter.mpr ⟨ht, hb⟩)
      · right
        cases hl : t.loc with
        | deferBroadcast p => exact ⟨p, rfl⟩
        | exit p => exact absurd hl (halive t ht p)
        | _ => rw [hl] at hb; simp [Loc.beforeReset] at hb

/-- Witness of C3 (amended): after a start, a step, a stop and a rejected start
the engine is running with one task at work, and a further start is
rejected. -/
theorem start_exclusive_witness :
    trimSpace "example.net" ≠ "" ∧
    ((Sys.idle []).exec asciiLib (fun _ => []) busyRun).hub.running = true ∧
    ((Sys.idle []).exec asciiLib (fun _ => []) busyRun).hub.start 7
        (some { target := "example.net" })
      = (.error "already running" 409, ((Sys.idle []).exec asciiLib (fun _ => []) busyRun).hub,
         none) ∧
    ((Sys.idle []).exec asciiLib (fun _ => []) busyRun).working.length ≤ 1 :=
  ⟨by decide, by decide,
   (start_exclusive asciiLib (fun _ => []) [] "example.net" (by decide)).1 _ 7 (by decide),
   ((start_exclusive asciiLib (fun _ => []) [] "example.net" (by decide)).2.2.2.2 busyRun).1⟩

/-- Counterexample to C3 as stated: the first task has run the reset of its
deferred function (the engine is idle again) and has not yet broadcast
`discover_finished` when a second start is accepted; two tasks launched by
`start` are then live. -/
theorem two_tasks_live :
    ((Sys.idle []).exec asciiLib (fun _ => []) (overlapRun.take 4)).hub.running = false ∧
    (((Sys.idle []).exec asciiLib (fun _ => []) (overlapRun.take 4)).start
      (some { target := "example.com" })).2 = .status "started" ∧
    ((Sys.idle []).exec asciiLib (fun _ => []) overlapRun).tasks
      = [{ ctx := 0, loc := .deferBroadcast false }, { ctx := 1, loc := .begin "example.com" }] ∧
    ((Sys.idle []).exec asciiLib (fun _ => []) overlapRun).tasks.length = 2 ∧
    ((Sys.idle []).exec asciiLib (fun _ => []) overlapRun).crashed = false := by
  decide

/-- C5: `broadcast` appends the one serialised payload at the tail of the queue
of every subscriber that holds fewer than 128 payloads and leaves the queue of
every subscriber that holds 128 as it was; it removes and reorders nothing,
adds and removes no subscriber, and does not touch the engine state.  Over any
run of broadcasts and receives, what a subscriber has written followed by what
it still holds is its initial queue followed by a subsequence, in order, of
the payloads broadcast. -/
theorem broadcast_drops_newest (marshal : DiscoverEvent → List UInt8) (h : DiscoverHub)
    (v : DiscoverEvent) :
    (h.broadcast marshal v).clients.map Prod.fst = h.clients.map Prod.fst ∧
    (∀ i p c, h.clients.get? i = some (p, c) →
      ∃ c1, (h.broadcast marshal v).clients.get? i = some (p, c1) ∧
        (c.ch.length < 128 → c1.ch = c.ch ++ [marshal v]) ∧
        (128 ≤ c.ch.length → c1.ch = c.ch) ∧
        c.ch <+: c1.ch) ∧
    (h.broadcast marshal v).running = h.running ∧
    (h.broadcast marshal v).cancel = h.cancel ∧
    (∀ (ops : List HubOp) (p : Nat) (c : sseClient), h.clients.lookup p = some c →
      ∃ (c1 : sseClient) (accepted : List (List UInt8)),
        (ops.foldl (DiscoverHub.apply marshal) h).clients.lookup p = some c1 ∧
        accepted.Sublist (broadcastPayloads marshal ops) ∧
        writtenBy marshal p h ops ++ c1.ch = c.ch ++ accepted) := by
  refine ⟨?_, ?_, rfl, rfl, fun ops p c hc => hub_run_fifo marshal ops h p c hc⟩
  · simp [DiscoverHub.broadcast, List.map_map, Function.comp_def]
  · intro i p c hg
    refine ⟨trySend c (marshal v), ?_, ?_, ?_, ?_⟩
    · have hg2 : h.clients[i]? = some (p, c) := by simpa using hg
      simp [DiscoverHub.broadcast, hg2]
    · intro hlt
      have : c.ch.length < chanCap := hlt
      simp [trySend, this]
    · intro hge
      have : ¬ c.ch.length < chanCap := by unfold chanCap; omega
      simp [trySend, this]
    · unfold trySend
      split
      · exact List.prefix_append _ _
      · exact List.prefix_refl _

/-- Witness of C5: the saturated subscriber loses the event, the other one
receives it. -/
theorem broadcast_drops_newest_witness :
    (crowdedHub.broadcast messageBytes (probeEvent "u" "t")).clients
      = [(1, { ch := List.replicate 128 [] }), (2, { ch := [messageBytes (probeEvent "u" "t")] })] ∧
    (∃ c1, (crowdedHub.broadcast messageBytes (probeEvent "u" "t")).clients.get? 0 = some (1, c1) ∧
      (128 ≤ 128 → c1.ch = List.replicate 128 [])) ∧
    (∃ c1, (crowdedHub.broadcast messageBytes (probeEvent "u" "t")).clients.get? 1 = some (2, c1) ∧
      (0 < 128 → c1.ch = [] ++ [messageBytes (probeEvent "u" "t")])) := by
  have hfull : ¬ (List.replicate 128 ([] : List UInt8)).length < chanCap := by
    simp [chanCap]
  have hb : (crowdedHub.broadcast messageBytes (probeEvent "u" "t")).clients
      = [(1, { ch := List.replicate 128 [] }),
         (2, { ch := [messageBytes (probeEvent "u" "t")] })] := by
    simp only [crowdedHub, DiscoverHub.broadcast, List.map_cons, List.map_nil, trySend, hfull,
      if_false]
    rfl
  refine ⟨hb, ?_, ?_⟩
  · obtain ⟨c1, h1, _, h3, _⟩ :=
      (broadcast_drops_newest messageBytes crowdedHub (probeEvent "u" "t")).2.1 0 1
        { ch := List.replicate 128 [] } (by rfl)
    exact ⟨c1, h1, fun _ => h3 (by simp)⟩
  · obtain ⟨c1, h1, h2, _, _⟩ :=
      (broadcast_drops_newest messageBytes crowdedHub (probeEvent "u" "t")).2.1 1 2
        { ch := [] } (by rfl)
    exact ⟨c1, h1, fun _ => h2 (by simp)⟩

/-- C6 (amended): for a host string `h` without `/` and without leading or
trailing white space, a path `p` and a scheme `s` that is `http://` or
`https://`, the task derives host `h` from `s ++ "www." ++ h ++ "/" ++ p`; when
`h` does not begin with `www.` it also derives `h` from `s ++ h`, and from
`s ++ h ++ "/" ++ p` unless `s` is `http://`, `h` is `https:` and `p` begins
with `/` (then the second scheme is stripped as well).  The target
`https://www.example.com/foo` gives `example.com`, with the probe URLs
`https://example.com/openapi.json`, `https://example.com/swagger.json`,
`https://example.com/docs`, in that order. -/
theorem discoverHost_scheme (s h p : String) (hs : s = "http://" ∨ s = "https://")
    (hslash : '/' ∉ h.data) (htrim : trimSpace h = h) :
    discoverHost (s ++ "www." ++ h ++ "/" ++ p) = h ∧
    (hasPrefix h "www." = false →
      discoverHost (s ++ h) = h ∧
      (¬ (s = "http://" ∧ h = "https:" ∧ hasPrefix p "/" = true) →
        discoverHost (s ++ h ++ "/" ++ p) = h)) ∧
    discoverHost "https://www.example.com/foo" = "example.com" ∧
    probes (discoverHost "https://www.example.com/foo")
      = ["https://example.com/openapi.json", "https://example.com/swagger.json",
         "https://example.com/docs"] := by
  have hsL : s.data = "http://".data ∨ s.data = "https://".data := by
    rcases hs with rfl | rfl
    · exact Or.inl rfl
    · exact Or.inr rfl
  have htL : trimSpaceL h.data = h.data := congrArg String.data htrim
  obtain ⟨f1, f2⟩ := scheme_forms_hostL s.data h.data p.data hsL hslash htL
  have e1 : s ++ "www." ++ h ++ "/" ++ p
      = ⟨s.data ++ "www.".data ++ h.data ++ "/".data ++ p.data⟩ := by
    apply String.ext; simp
  have e2 : s ++ h = ⟨s.data ++ h.data⟩ := by
    apply String.ext; simp
  have e3 : s ++ h ++ "/" ++ p = ⟨s.data ++ h.data ++ "/".data ++ p.data⟩ := by
    apply String.ext; simp
  refine ⟨by rw [e1]; exact f1, fun hnw => ?_, by decide, by decide⟩
  obtain ⟨g1, g2⟩ := f2 hnw
  refine ⟨by rw [e2]; exact g1, fun hex => ?_⟩
  rw [e3]
  apply g2
  rintro ⟨q1, q2, q3⟩
  exact hex ⟨String.ext q1, String.ext q2, q3⟩

/-- Witness of C6 (amended): scheme `https://`, host `example.com`, path `foo`. -/
theorem discoverHost_scheme_witness :
    (("https://" : String) = "http://" ∨ ("https://" : String) = "https://") ∧
    '/' ∉ ("example.com" : String).data ∧
    trimSpace "example.com" = "example.com" ∧
    discoverHost ("https://" ++ "www." ++ "example.com" ++ "/" ++ "foo") = "example.com" :=
  ⟨Or.inr rfl, by decide, by decide,
   (discoverHost_scheme "https://" "example.com" "foo" (Or.inr rfl) (by decide) (by decide)).1⟩

/-- Counterexample to C6 as stated: scheme `http://`, host string `https:` (no
`/`, no white space, not beginning with `www.`) and path `/x`: the target is
`http://https://x` and the host derived is `x`. -/
theorem discoverHost_double_scheme :
    '/' ∉ ("https:" : String).data ∧
    trimSpace "https:" = "https:" ∧
    hasPrefix "https:" "www." = false ∧
    ("http://" : String) ++ "https:" ++ "/" ++ "/x" = "http://https://x" ∧
    discoverHost ("http://" ++ "https:" ++ "/" ++ "/x") = "x" ∧
    discoverHost ("http://" ++ "https:" ++ "/" ++ "/x") ≠ "https:" := by
  decide

/-- C7, the code at the failing input: a target without `://` is not split at
`/`; `example.com/foo` gives the host `example.com/foo`, not `example.com`, and
the probe URLs are built on it. -/
theorem discoverHost_bare_keeps_path :
    contains "example.com/foo" "://" = false ∧
    discoverHost "example.com/foo" = "example.com/foo" ∧
    discoverHost "example.com/foo" ≠ "example.com" ∧
    probes (discoverHost "example.com/foo")
      = ["https://example.com/foo/openapi.json", "https://example.com/foo/swagger.json",
         "https://example.com/foo/docs"] := by
  decide

end Stressless
